import Mathlib

/-!
Verification development for the proactive-assistant backend
(`src/server.js`).  The JavaScript source is shallowly embedded:

* strings are `List Char` / `String`, timestamps are `Int` milliseconds
  (JavaScript `Date` values enter the model as the millisecond instants
  they denote);
* `JSON.parse` / `JSON.stringify` are modelled by an executable
  recursive-descent parser `jsonParse` and printer `stringifyJson` over a
  `Json` value type (numbers keep their source lexeme, since the claims
  never compute with them);
* each scheduled job's firing body is a pure function from its inputs
  (store contents, clock readings, the oracle's raw reply) to the list of
  observable actions it performs and the updated notification log;
* fallible JavaScript code (`JSON.parse` throwing, a `catch` block) is
  modelled with `Option`.
-/

namespace Assistant

/- ───────────────────────── JavaScript string helpers ───────────────────── -/

/-- The backtick character, written via its code point. -/
def btick : Char := Char.ofNat 96

/-- Whitespace as stripped by JavaScript `String.prototype.trim`
(space, tab, LF, CR, VT, FF; the rarer Unicode space classes never occur
in the texts the program manipulates). -/
def jsWsChar (c : Char) : Bool :=
  c = ' ' || c = '\t' || c = '\n' || c = '\r' || c = '\x0b' || c = '\x0c'

/-- JavaScript `s.trim()`: drop leading and trailing whitespace. -/
def trimL (cs : List Char) : List Char :=
  ((cs.dropWhile jsWsChar).reverse.dropWhile jsWsChar).reverse

/-- `pat` occurs at the front of `cs` (JavaScript `s.startsWith(pat)`). -/
def leadsWith : List Char → List Char → Bool
  | [], _ => true
  | _ :: _, [] => false
  | p :: ps, c :: cs => p == c && leadsWith ps cs

/-- `pat` occurs at the end of `cs` (JavaScript `s.endsWith(pat)`). -/
def trailsWith (pat cs : List Char) : Bool :=
  leadsWith pat.reverse cs.reverse

/-- `pat` occurs somewhere in `cs` (JavaScript `s.includes(pat)`). -/
def infixOfB : List Char → List Char → Bool
  | pat, [] => pat.isEmpty
  | pat, c :: cs => leadsWith pat (c :: cs) || infixOfB pat cs

/-- `s.includes(pat)` on `String`. -/
def strIncludes (s pat : String) : Bool := infixOfB pat.data s.data

/-- JavaScript `s.indexOf(c)`: index of the first occurrence, `-1` if none. -/
def jsIndexOfChar (cs : List Char) (c : Char) : Int :=
  match cs with
  | [] => -1
  | x :: xs =>
    if x = c then 0
    else if jsIndexOfChar xs c < 0 then -1 else jsIndexOfChar xs c + 1

/-- JavaScript `s.slice(start)` (a negative `start` counts from the end). -/
def jsSliceFrom (cs : List Char) (start : Int) : List Char :=
  if start < 0 then cs.drop (cs.length - (-start).toNat) else cs.drop start.toNat

/-- JavaScript `s.slice(0, stop)` (a negative `stop` counts from the end). -/
def jsSliceTo (cs : List Char) (stop : Int) : List Char :=
  if stop < 0 then cs.take (cs.length - (-stop).toNat) else cs.take stop.toNat

/-- JavaScript `s.lastIndexOf(pat)`: start index of the last occurrence of
the sublist `pat` (an occurrence in the tail wins over one here), `-1`
if none; the empty pattern is found at the end, as in JavaScript. -/
def jsLastIndexOfSub : List Char → List Char → Int
  | [], pat => if pat.isEmpty then 0 else -1
  | x :: xs, pat =>
    if 0 ≤ jsLastIndexOfSub xs pat then jsLastIndexOfSub xs pat + 1
    else if leadsWith pat (x :: xs) then 0
    else -1

/-- JavaScript `arr.slice(-n)`: the last `n` elements. -/
def sliceLast (l : List α) (n : Nat) : List α := l.drop (l.length - n)

/- ───────────────────────────── JSON values ─────────────────────────────── -/

/-- JSON values.  A number keeps its source lexeme: the program never does
arithmetic on parsed numbers, so the lexeme is a faithful representation
that avoids floating point. -/
inductive Json where
  | null
  | bool (b : Bool)
  | num (lex : String)
  | str (s : String)
  | arr (elems : List Json)
  | obj (fields : List (String × Json))

mutual
def decEqJson : (a b : Json) → Decidable (a = b)
  | .null, .null => .isTrue rfl
  | .bool a, .bool b =>
    if h : a = b then .isTrue (by rw [h]) else .isFalse (by simp [h])
  | .num a, .num b =>
    if h : a = b then .isTrue (by rw [h]) else .isFalse (by simp [h])
  | .str a, .str b =>
    if h : a = b then .isTrue (by rw [h]) else .isFalse (by simp [h])
  | .arr xs, .arr ys =>
    match decEqJsonList xs ys with
    | .isTrue h => .isTrue (by rw [h])
    | .isFalse h => .isFalse (by simp [h])
  | .obj xs, .obj ys =>
    match decEqJsonFields xs ys with
    | .isTrue h => .isTrue (by rw [h])
    | .isFalse h => .isFalse (by simp [h])
  | .null, .bool _ => .isFalse nofun
  | .null, .num _ => .isFalse nofun
  | .null, .str _ => .isFalse nofun
  | .null, .arr _ => .isFalse nofun
  | .null, .obj _ => .isFalse nofun
  | .bool _, .null => .isFalse nofun
  | .bool _, .num _ => .isFalse nofun
  | .bool _, .str _ => .isFalse nofun
  | .bool _, .arr _ => .isFalse nofun
  | .bool _, .obj _ => .isFalse nofun
  | .num _, .null => .isFalse nofun
  | .num _, .bool _ => .isFalse nofun
  | .num _, .str _ => .isFalse nofun
  | .num _, .arr _ => .isFalse nofun
  | .num _, .obj _ => .isFalse nofun
  | .str _, .null => .isFalse nofun
  | .str _, .bool _ => .isFalse nofun
  | .str _, .num _ => .isFalse nofun
  | .str _, .arr _ => .isFalse nofun
  | .str _, .obj _ => .isFalse nofun
  | .arr _, .null => .isFalse nofun
  | .arr _, .bool _ => .isFalse nofun
  | .arr _, .num _ => .isFalse nofun
  | .arr _, .str _ => .isFalse nofun
  | .arr _, .obj _ => .isFalse nofun
  | .obj _, .null => .isFalse nofun
  | .obj _, .bool _ => .isFalse nofun
  | .obj _, .num _ => .isFalse nofun
  | .obj _, .str _ => .isFalse nofun
  | .obj _, .arr _ => .isFalse nofun

def decEqJsonList : (a b : List Json) → Decidable (a = b)
  | [], [] => .isTrue rfl
  | [], _ :: _ => .isFalse nofun
  | _ :: _, [] => .isFalse nofun
  | x :: xs, y :: ys =>
    match decEqJson x y, decEqJsonList xs ys with
    | .isTrue h1, .isTrue h2 => .isTrue (by rw [h1, h2])
    | .isFalse h1, _ => .isFalse (by simp [h1])
    | _, .isFalse h2 => .isFalse (by simp [h2])

def decEqJsonFields : (a b : List (String × Json)) → Decidable (a = b)
  | [], [] => .isTrue rfl
  | [], _ :: _ => .isFalse nofun
  | _ :: _, [] => .isFalse nofun
  | (k1, v1) :: xs, (k2, v2) :: ys =>
    match String.decEq k1 k2, decEqJson v1 v2, decEqJsonFields xs ys with
    | .isTrue h0, .isTrue h1, .isTrue h2 => .isTrue (by rw [h0, h1, h2])
    | .isFalse h0, _, _ => .isFalse (by simp [h0])
    | _, .isFalse h1, _ => .isFalse (by simp [h1])
    | _, _, .isFalse h2 => .isFalse (by simp [h2])
end

instance : DecidableEq Json := decEqJson

/- ─────────────────────── JSON parsing (JSON.parse) ─────────────────────── -/

/-- JSON insignificant whitespace (RFC 8259: space, tab, LF, CR). -/
def jsonWsChar (c : Char) : Bool :=
  c = ' ' || c = '\t' || c = '\n' || c = '\r'

/-- Skip insignificant whitespace. -/
def skipWs (cs : List Char) : List Char := cs.dropWhile jsonWsChar

/-- Value of one hexadecimal digit. -/
def hexVal (c : Char) : Option Nat :=
  if '0' ≤ c ∧ c ≤ '9' then some (c.toNat - '0'.toNat)
  else if 'a' ≤ c ∧ c ≤ 'f' then some (c.toNat - 'a'.toNat + 10)
  else if 'A' ≤ c ∧ c ≤ 'F' then some (c.toNat - 'A'.toNat + 10)
  else none

/-- The single-character escapes of JSON strings. -/
def escMap (c : Char) : Option Char :=
  if c = '"' then some '"'
  else if c = '\\' then some '\\'
  else if c = '/' then some '/'
  else if c = 'b' then some '\x08'
  else if c = 'f' then some '\x0c'
  else if c = 'n' then some '\n'
  else if c = 'r' then some '\r'
  else if c = 't' then some '\t'
  else none

/-- Parse the body of a JSON string literal (the part after the opening
quote), returning the decoded characters and the rest of the input after
the closing quote.  `fuel` bounds the recursion; every step consumes at
least one character. -/
def parseStrBody : Nat → List Char → Option (List Char × List Char)
  | 0, _ => none
  | _ + 1, [] => none
  | fuel + 1, c :: cs =>
    if c = '"' then some ([], cs)
    else if c = '\\' then
      match cs with
      | [] => none
      | e :: cs2 =>
        if e = 'u' then
          match cs2 with
          | h1 :: h2 :: h3 :: h4 :: cs3 =>
            match hexVal h1, hexVal h2, hexVal h3, hexVal h4 with
            | some a, some b, some c2, some d =>
              (parseStrBody fuel cs3).map
                (fun r => (Char.ofNat (4096 * a + 256 * b + 16 * c2 + d) :: r.1, r.2))
            | _, _, _, _ => none
          | _ => none
        else
          match escMap e with
          | some ch => (parseStrBody fuel cs2).map (fun r => (ch :: r.1, r.2))
          | none => none
    else if c.toNat < 32 then none
    else (parseStrBody fuel cs).map (fun r => (c :: r.1, r.2))

/-- Longest digit run at the front. -/
def spanDigits (cs : List Char) : List Char × List Char :=
  (cs.takeWhile Char.isDigit, cs.dropWhile Char.isDigit)

/-- Optional fraction part `.digits` of a JSON number. -/
def parseFracPart (cs : List Char) : Option (List Char × List Char) :=
  match cs with
  | c :: t =>
    if c = '.' then
      let p := spanDigits t
      if p.1 = [] then none else some ('.' :: p.1, p.2)
    else some ([], c :: t)
  | [] => some ([], [])

/-- Optional exponent part `e[+-]digits` of a JSON number. -/
def parseExpPart : List Char → Option (List Char × List Char)
  | [] => some ([], [])
  | [c] => if c = 'e' ∨ c = 'E' then none else some ([], [c])
  | c :: s :: t2 =>
    if c = 'e' ∨ c = 'E' then
      if s = '+' ∨ s = '-' then
        let p := spanDigits t2
        if p.1 = [] then none else some (c :: s :: p.1, p.2)
      else
        let p := spanDigits (s :: t2)
        if p.1 = [] then none else some (c :: p.1, p.2)
    else some ([], c :: s :: t2)

/-- Integer part of a JSON number: a single `0`, or a nonzero digit
followed by a digit run. -/
def parseIntPart : List Char → Option (List Char × List Char)
  | [] => none
  | d :: t =>
    if d = '0' then some (['0'], t)
    else if d.isDigit then
      let p := spanDigits t
      some (d :: p.1, p.2)
    else none

/-- The integer/fraction/exponent phases of a JSON number after the
optional minus sign `sign`. -/
def parseNumberTail (sign cs : List Char) : Option (List Char × List Char) :=
  match parseIntPart cs with
  | none => none
  | some (ipart, r1) =>
    match parseFracPart r1 with
    | none => none
    | some (fpart, r2) =>
      match parseExpPart r2 with
      | none => none
      | some (epart, r3) => some (sign ++ ipart ++ fpart ++ epart, r3)

/-- Parse a JSON number, returning its lexeme and the rest of the input. -/
def parseNumber : List Char → Option (List Char × List Char)
  | [] => none
  | c :: t => if c = '-' then parseNumberTail ['-'] t else parseNumberTail [] (c :: t)

/-- Expect a literal keyword tail (like `rue` after `t`). -/
def expectLit (pat : List Char) (res : Json) (cs : List Char) :
    Option (Json × List Char) :=
  if leadsWith pat cs then some (res, cs.drop pat.length) else none

mutual
/-- Parse one JSON value. -/
def parseValue : Nat → List Char → Option (Json × List Char)
  | 0, _ => none
  | fuel + 1, cs =>
    match skipWs cs with
    | [] => none
    | c :: rest =>
      if c = '{' then parseObjStart fuel rest
      else if c = '[' then parseArrStart fuel rest
      else if c = '"' then
        match parseStrBody (rest.length + 1) rest with
        | some (s, r) => some (.str (String.mk s), r)
        | none => none
      else if c = 't' then expectLit "rue".data (.bool true) rest
      else if c = 'f' then expectLit "alse".data (.bool false) rest
      else if c = 'n' then expectLit "ull".data .null rest
      else
        match parseNumber (c :: rest) with
        | some (lex, r) => some (.num (String.mk lex), r)
        | none => none

/-- Parse the inside of an array (input starts after `[`). -/
def parseArrStart : Nat → List Char → Option (Json × List Char)
  | 0, _ => none
  | fuel + 1, cs =>
    match skipWs cs with
    | ']' :: r => some (.arr [], r)
    | _ =>
      match parseValue fuel cs with
      | some (v, r) => parseArrRest fuel [v] r
      | none => none

/-- Parse `, value`* `]` after an array element. -/
def parseArrRest : Nat → List Json → List Char → Option (Json × List Char)
  | 0, _, _ => none
  | fuel + 1, acc, cs =>
    match skipWs cs with
    | ',' :: r =>
      match parseValue fuel r with
      | some (v, r2) => parseArrRest fuel (acc ++ [v]) r2
      | none => none
    | ']' :: r => some (.arr acc, r)
    | _ => none

/-- Parse the inside of an object (input starts after the opening brace). -/
def parseObjStart : Nat → List Char → Option (Json × List Char)
  | 0, _ => none
  | fuel + 1, cs =>
    match skipWs cs with
    | '}' :: r => some (.obj [], r)
    | _ =>
      match parseMember fuel cs with
      | some (k, v, r) => parseObjRest fuel [(k, v)] r
      | none => none

/-- Parse `, member`* and the closing brace after an object member. -/
def parseObjRest : Nat → List (String × Json) → List Char → Option (Json × List Char)
  | 0, _, _ => none
  | fuel + 1, acc, cs =>
    match skipWs cs with
    | ',' :: r =>
      match parseMember fuel r with
      | some (k, v, r2) => parseObjRest fuel (acc ++ [(k, v)]) r2
      | none => none
    | '}' :: r => some (.obj acc, r)
    | _ => none

/-- Parse one `"key" : value` member. -/
def parseMember : Nat → List Char → Option (String × Json × List Char)
  | 0, _ => none
  | fuel + 1, cs =>
    match skipWs cs with
    | '"' :: r =>
      match parseStrBody (r.length + 1) r with
      | some (k, r2) =>
        match skipWs r2 with
        | ':' :: r3 =>
          match parseValue fuel r3 with
          | some (v, r4) => some (String.mk k, v, r4)
          | none => none
        | _ => none
      | none => none
    | _ => none
end

/-- `JSON.parse` .  Anything other than one JSON value (padded by
whitespace) is a parse error (`none` = the JavaScript call throws).
The fuel `2 * length + 4` dominates the recursion depth, since every
other step of the mutual descent consumes at least one character. -/
def jsonParse (cs : List Char) : Option Json :=
  match parseValue (2 * cs.length + 4) cs with
  | some (v, rest) => if skipWs rest = [] then some v else none
  | none => none

/- ──────────────────── JSON printing (JSON.stringify) ───────────────────── -/

/-- One hexadecimal digit character. -/
def hexDigitChar (n : Nat) : Char :=
  if n < 10 then Char.ofNat ('0'.toNat + n) else Char.ofNat ('a'.toNat + n - 10)

/-- How `JSON.stringify` escapes one character of a string. -/
def escapeChar (c : Char) : List Char :=
  if c = '"' then ['\\', '"']
  else if c = '\\' then ['\\', '\\']
  else if c = '\x08' then ['\\', 'b']
  else if c = '\x0c' then ['\\', 'f']
  else if c = '\n' then ['\\', 'n']
  else if c = '\r' then ['\\', 'r']
  else if c = '\t' then ['\\', 't']
  else if c.toNat < 32 then
    ['\\', 'u', '0', '0', hexDigitChar (c.toNat / 16), hexDigitChar (c.toNat % 16)]
  else [c]

/-- Escape a whole string body. -/
def escapeList : List Char → List Char
  | [] => []
  | c :: cs => escapeChar c ++ escapeList cs

mutual
/-- `JSON.stringify` (on `Json` values; no indentation argument). -/
def stringifyJson : Json → List Char
  | .null => "null".data
  | .bool true => "true".data
  | .bool false => "false".data
  | .num lex => lex.data
  | .str s => '"' :: escapeList s.data ++ ['"']
  | .arr l => '[' :: stringifyElems l ++ [']']
  | .obj l => '{' :: stringifyMembers l ++ ['}']

/-- Array elements joined by commas. -/
def stringifyElems : List Json → List Char
  | [] => []
  | [v] => stringifyJson v
  | v :: vs => stringifyJson v ++ ',' :: stringifyElems vs

/-- Object members joined by commas. -/
def stringifyMembers : List (String × Json) → List Char
  | [] => []
  | [(k, v)] => '"' :: escapeList k.data ++ '"' :: ':' :: stringifyJson v
  | (k, v) :: vs =>
    '"' :: escapeList k.data ++ '"' :: ':' :: stringifyJson v ++ ',' :: stringifyMembers vs
end

/-- `JSON.stringify` producing a `String`. -/
def stringifyStr (v : Json) : String := String.mk (stringifyJson v)

mutual
/-- Well-formedness used for the store round trip: every number lexeme in
the value is a complete number per the JSON grammar (checked by running
the number parser on it).  Booleans, strings, nulls and the tree shape
are unrestricted. -/
def jsonWF : Json → Bool
  | .null => true
  | .bool _ => true
  | .num lex => decide (parseNumber lex.data = some (lex.data, []))
  | .str _ => true
  | .arr l => jsonWFList l
  | .obj l => jsonWFFields l

def jsonWFList : List Json → Bool
  | [] => true
  | v :: vs => jsonWF v && jsonWFList vs

def jsonWFFields : List (String × Json) → Bool
  | [] => true
  | (_, v) :: vs => jsonWF v && jsonWFFields vs
end

/- ─────────────── the defensive parser (parseJSON in server.js) ─────────── -/

/-- The code-fence marker. -/
def fenceMark : List Char := "```".data

/-- The string massaging done by `parseJSON` in `server.js`:

```js
let s = raw.trim();
if (s.startsWith('```')) s = s.slice(s.indexOf('\n') + 1);
if (s.endsWith('```'))   s = s.slice(0, s.lastIndexOf('```')).trim();
```
-/
def fenceStrip (raw : List Char) : List Char :=
  let s0 := trimL raw
  let s1 := if leadsWith fenceMark s0 then jsSliceFrom s0 (jsIndexOfChar s0 '\n' + 1) else s0
  if trailsWith fenceMark s1 then trimL (jsSliceTo s1 (jsLastIndexOfSub s1 fenceMark)) else s1

/-- `parseJSON` from `server.js`: strip fences, then `JSON.parse`
(`none` = the JavaScript function throws). -/
def parseJSON (raw : String) : Option Json := jsonParse (fenceStrip raw.data)

instance : Inhabited Json := ⟨Json.null⟩

/- ───────────────── JavaScript value helpers (truthiness etc.) ──────────── -/

/-- Is the mantissa of a number lexeme zero (so the JavaScript number is
`0` or `-0`, which are falsy)? -/
def numLexIsZero (lex : String) : Bool :=
  ((lex.data.takeWhile (fun c => c ≠ 'e' && c ≠ 'E')).filter Char.isDigit).all (· = '0')

/-- JavaScript truthiness of a parsed JSON value. -/
def jsTruthy : Json → Bool
  | .null => false
  | .bool b => b
  | .num lex => !(numLexIsZero lex)
  | .str s => s != ""
  | .arr _ => true
  | .obj _ => true

/-- Truthiness of a possibly-undefined value (property access miss). -/
def jsTruthyO : Option Json → Bool
  | none => false
  | some v => jsTruthy v

/-- JavaScript property access `obj.k` on a parsed JSON value:
`none` models `undefined`.  `JSON.parse` keeps the last of duplicate
keys, hence the `getLast?`. -/
def jsField (j : Json) (k : String) : Option Json :=
  match j with
  | .obj fl => ((fl.filter (fun p => p.1 == k)).getLast?).map (·.2)
  | _ => none

mutual
/-- JavaScript string coercion (template-literal interpolation) of a
parsed JSON value. -/
def jsToString : Json → String
  | .null => "null"
  | .bool true => "true"
  | .bool false => "false"
  | .num lex => lex
  | .str s => s
  | .arr l => jsToStringElems l
  | .obj _ => "[object Object]"

/-- `Array.prototype.toString`: elements joined by commas, with `null`
elements rendered empty. -/
def jsToStringElems : List Json → String
  | [] => ""
  | [.null] => ""
  | [v] => jsToString v
  | .null :: vs => "," ++ jsToStringElems vs
  | v :: vs => jsToString v ++ "," ++ jsToStringElems vs
end

/-- Interpolation of a possibly-undefined value (renders `undefined`). -/
def jsToStringU : Option Json → String
  | none => "undefined"
  | some v => jsToString v

/-- `x || dflt` on a string (empty string is falsy). -/
def jsOrS (s d : String) : String := if s = "" then d else s

/-- `x || dflt` on a possibly-absent string. -/
def jsOrOS (o : Option String) (d : String) : String :=
  match o with
  | some s => jsOrS s d
  | none => d

/-- `v || dflt` rendered as a string, for `${decision.subject || '...'}`:
a truthy value is interpolated, anything falsy yields the default. -/
def jsOrStr (o : Option Json) (d : String) : String :=
  match o with
  | some v => if jsTruthy v then jsToString v else d
  | none => d

/-- `s.toUpperCase()` (the priorities this is applied to are ASCII). -/
def jsToUpper (s : String) : String := String.mk (s.data.map Char.toUpper)

/- ──────────────────────── key-value store (§4.1) ───────────────────────── -/

/-- The single-table key-value store: a logical key maps to the stored
JSON text (or is absent). -/
def Store := String → Option String

/-- A store with no rows. -/
def emptyStore : Store := fun _ => none

/-- `dbSet`: upsert of `JSON.stringify(value)` under `key`
(`INSERT ... ON CONFLICT (key) DO UPDATE SET value = $2`). -/
def dbSet (s : Store) (k : String) (v : Json) : Store :=
  fun k2 => if k2 = k then some (stringifyStr v) else s k2

/-- Result of `dbGet`: `null` for an absent row, otherwise the parsed
JSON value; `error` models `JSON.parse` throwing on the stored text. -/
inductive GetResult where
  | null
  | value (j : Json)
  | error
deriving DecidableEq

/-- `dbGet`: `SELECT value FROM store WHERE key = $1`, then `JSON.parse`. -/
def dbGet (s : Store) (k : String) : GetResult :=
  match s k with
  | none => .null
  | some txt =>
    match jsonParse txt.data with
    | some j => .value j
    | none => .error

/-- One row of the `initDb` seed insert: `ON CONFLICT (key) DO NOTHING`. -/
def insertIfAbsent (s : Store) (k v : String) : Store :=
  fun k2 => if k2 = k then some ((s k).getD v) else s k2

/-- The rows seeded by `initDb`. -/
def storeDefaults : List (String × String) :=
  [("tasks", "[]"), ("goals", "[]"), ("memory", "\"\""), ("notification_log", "[]"),
   ("projects", "[]"), ("completion_log", "[]"), ("notes", "[]")]

/-- `initDb`: create the table if needed and seed the default rows
without overwriting existing ones. -/
def initDb (s : Store) : Store :=
  storeDefaults.foldl (fun acc kv => insertIfAbsent acc kv.1 kv.2) s

/-- A sequence of later `dbSet` calls. -/
def applySets (ops : List (String × Json)) (s : Store) : Store :=
  ops.foldl (fun acc op => dbSet acc op.1 op.2) s

/- ─────────────────────────── dates at day granularity ──────────────────── -/

/-- Decimal value of a digit character. -/
def digitVal (c : Char) : Nat := c.toNat - '0'.toNat

def isLeapYear (y : Int) : Bool := (y % 4 = 0 && y % 100 ≠ 0) || y % 400 = 0

def daysInMonth (y m : Int) : Int :=
  if m = 2 then (if isLeapYear y then 29 else 28)
  else if m = 4 ∨ m = 6 ∨ m = 9 ∨ m = 11 then 30
  else 31

/-- Days since 1970-01-01 of a civil date (Howard Hinnant's algorithm). -/
def daysFromCivil (y m d : Int) : Int :=
  let y2 := if m ≤ 2 then y - 1 else y
  let era := y2.fdiv 400
  let yoe := y2 - era * 400
  let mp := (m + 9) % 12
  let doy := (153 * mp + 2).fdiv 5 + d - 1
  let doe := yoe * 365 + yoe.fdiv 4 - yoe.fdiv 100 + doy
  era * 146097 + doe - 719468

/-- Parse a `YYYY-MM-DD` task due date to its civil day number; `none`
models `new Date(...)` yielding an Invalid Date. -/
def parseYMD (s : String) : Option Int :=
  match s.data with
  | [y1, y2, y3, y4, '-', m1, m2, '-', d1, d2] =>
    if y1.isDigit && y2.isDigit && y3.isDigit && y4.isDigit &&
       m1.isDigit && m2.isDigit && d1.isDigit && d2.isDigit then
      let y : Int := (1000 * digitVal y1 + 100 * digitVal y2 + 10 * digitVal y3 + digitVal y4 : Nat)
      let m : Int := (10 * digitVal m1 + digitVal m2 : Nat)
      let d : Int := (10 * digitVal d1 + digitVal d2 : Nat)
      if 1 ≤ m ∧ m ≤ 12 ∧ 1 ≤ d ∧ d ≤ daysInMonth y m then some (daysFromCivil y m d)
      else none
    else none
  | _ => none

/-- The millisecond instant of `new Date(ds + 'T00:00:00')`, measured on
the configured time zone's local-midnight scale (all instants in the
model share that scale, so offsets cancel in differences). -/
def dueDateValueMs (ds : String) : Option Int := (parseYMD ds).map (· * 86400000)

/-- `Math.round(deltaMs / 86400000)` for an exact millisecond delta
(`Math.round x = ⌊x + 1/2⌋`, which rounds halves toward `+∞`). -/
def jsRoundDayDiff (deltaMs : Int) : Int := (deltaMs + 43200000).fdiv 86400000

/-- The urgency label of the due/overdue check:
`diff < 0 ? OVERDUE by |diff|d : diff === 0 ? DUE TODAY : due in diff d`. -/
def urgencyLabel (diff : Int) : String :=
  if diff < 0 then "OVERDUE by " ++ toString diff.natAbs ++ "d"
  else if diff = 0 then "DUE TODAY"
  else "due in " ++ toString diff ++ "d"

/- ─────────────────────────────── data model ────────────────────────────── -/

/-- A task as the jobs read it (`done`, `priority`, `dueDate`, `title`,
`category`, `recurrence`; fields the core never reads are omitted). -/
structure Task where
  title : String
  priority : String
  category : String
  dueDate : Option String
  recurrence : Option String
  done : Bool
deriving DecidableEq

/-- A goal as the jobs read it. -/
structure Goal where
  title : String
  achieved : Bool
  target : Option Int
  saved : Option Int
deriving DecidableEq

/-- One notification-log entry `{type, sentAt, html}` (`sentAt` as the
millisecond instant of its ISO timestamp). -/
structure LogEntry where
  type : String
  sentAt : Int
  html : String
deriving DecidableEq

/-- One completion-log entry; `completedAtDisp` carries the
locale-rendered date string `toLocaleDateString` would produce. -/
structure CompletionEntry where
  taskTitle : String
  completedAtMs : Int
  completedAtDisp : String
deriving DecidableEq

/-- The delivery credentials (`GMAIL_USER`, `GMAIL_APP_PASSWORD`). -/
structure EmailCfg where
  user : Option String
  pass : Option String
deriving DecidableEq

/-- Truthiness of an environment variable (absent or empty = unset). -/
def envSet : Option String → Bool
  | none => false
  | some s => s != ""

/-- The observable actions of one job firing. -/
inductive Action where
  | respond (ok : Bool) (msg : String)
  | oracle (system user : String) (maxTokens : Nat)
  | email (subject html : String)
deriving DecidableEq

/-- Actions performed plus the notification log after the firing. -/
structure FireResult where
  actions : List Action
  log : List LogEntry
deriving DecidableEq

/-- `callClaude` prepends the standing memory to the system prompt when
present. -/
def withMemory (sys memory : String) : String :=
  if memory = "" then sys else sys ++ "\n\nAbout the user:\n" ++ memory

/-- The notification gate: some log entry whose `type` contains `tag` has
`sentAt` within `coolDownMs` of now. -/
def recentlySent (log : List LogEntry) (tag : String) (coolDownMs nowMs : Int) : Bool :=
  log.any (fun n => strIncludes n.type tag && decide (nowMs - n.sentAt < coolDownMs))

/-- `emailTemplate(title, body, color)` from `server.js`. -/
def emailTemplate (title body color : String) : String :=
  "\n    <div style=\"font-family:\x27Helvetica Neue\x27,Arial,sans-serif;max-width:520px;margin:0 auto;padding:24px\">\n      <div style=\"background:" ++ color ++
  ";color:white;padding:16px 20px;border-radius:8px 8px 0 0\">\n        <h2 style=\"margin:0;font-size:16px;font-weight:500\">" ++ title ++
  "</h2>\n      </div>\n      <div style=\"background:#fff;border:1px solid #e8e2d8;border-top:none;padding:20px;border-radius:0 0 8px 8px;line-height:1.65;font-size:14px;color:#1a1a14\">\n        " ++ body ++
  "\n      </div>\n      <p style=\"font-size:11px;color:#9a9a84;margin-top:12px;text-align:center\">Sent by your Claude Assistant</p>\n    </div>"

/-- `sendEmail(subject, htmlBody)`: a no-op when the credentials are not
both set; otherwise deliver and append `{type: subject, sentAt: now,
html: htmlBody}` to the log, trimmed to the last 50 entries. -/
def sendEmail (cfg : EmailCfg) (log : List LogEntry) (subject html : String)
    (nowMs : Int) : FireResult :=
  if !(envSet cfg.user && envSet cfg.pass) then ⟨[], log⟩
  else ⟨[.email subject html], sliceLast (log ++ [⟨subject, nowMs, html⟩]) 50⟩

/- ─────────────────────────── scheduled job bodies ──────────────────────── -/

/-- `, due ${t.dueDate}` when the due date is truthy. -/
def optDue (t : Task) : String :=
  match t.dueDate with
  | some ds => if ds = "" then "" else ", due " ++ ds
  | none => ""

/-- `Math.round((g.saved / g.target) * 100)` for integer amounts. -/
def jsRoundPct (sv tv : Int) : Int := (200 * sv + tv).fdiv (2 * tv)

/-- The percent-funded figure of a goal line (an absent `saved` divides
as `undefined`, printing `NaN`). -/
def pctDisp (saved : Option Int) (tv : Int) : String :=
  match saved with
  | none => "NaN"
  | some sv => toString (jsRoundPct sv tv)

/-- A goal line of the morning briefing context. -/
def goalLine (g : Goal) : String :=
  let pct :=
    match g.target with
    | some tv => if tv = 0 then "" else " (" ++ pctDisp g.saved tv ++ "% funded)"
    | none => ""
  "- " ++ g.title ++ pct

/-- A task line of the morning briefing context. -/
def morningTaskLine (t : Task) : String :=
  "- [" ++ jsToUpper t.priority ++ "] " ++ t.title ++ " (" ++ t.category ++ ")" ++ optDue t

def morningSysPrompt (dateLong : String) : String :=
  "You are a proactive personal assistant writing a morning briefing email.\nBe warm and practical. Format as HTML using <p>, <strong>, <ul>, <li> tags. Keep under 200 words.\nToday is " ++ dateLong ++ "."

/-- JOB 1, morning briefing: one firing of the `cron.schedule` body.
`dateLong`/`dateShort` are the two `toLocaleDateString` renderings of
today and `reply` is the oracle's raw reply text. -/
def morningFiring (cfg : EmailCfg) (tasks : List Task) (goals : List Goal)
    (log : List LogEntry) (memory dateLong dateShort reply : String)
    (sendMs : Int) : FireResult :=
  let openTasks := tasks.filter (fun t => !t.done)
  let openGoals := goals.filter (fun g => !g.achieved)
  if openTasks.length = 0 ∧ openGoals.length = 0 then ⟨[], log⟩
  else
    let taskContext := jsOrS (String.intercalate "\n" (openTasks.map morningTaskLine)) "None"
    let goalContext := jsOrS (String.intercalate "\n" (openGoals.map goalLine)) "None"
    let usr := "Write a morning briefing.\n\nOpen tasks:\n" ++ taskContext ++
      "\n\nLong-term goals:\n" ++ goalContext
    let r := sendEmail cfg log ("☀️ Morning Briefing — " ++ dateShort)
      (emailTemplate "Your Morning Briefing" reply "#2d5016") sendMs
    ⟨.oracle (withMemory (morningSysPrompt dateLong) memory) usr 512 :: r.actions, r.log⟩

/-- Is a task picked up by the due/overdue check
(`!done && dueDate && new Date(dueDate+T00:00:00) <= today+3d`)? -/
def dueTaskUrgent (todayMs : Int) (t : Task) : Bool :=
  if t.done then false
  else match t.dueDate with
    | none => false
    | some ds =>
      if ds = "" then false
      else match dueDateValueMs ds with
        | some ms => decide (ms ≤ todayMs + 3 * 86400000)
        | none => false

/-- A task line of the due/overdue context, with its urgency label
(tasks reaching this point have a parseable due date). -/
def dueTaskLine (todayMs : Int) (t : Task) : String :=
  let diff :=
    match t.dueDate with
    | some ds =>
      (match dueDateValueMs ds with
       | some ms => jsRoundDayDiff (ms - todayMs)
       | none => 0)
    | none => 0
  "- [" ++ jsToUpper t.priority ++ "] " ++ t.title ++ " — " ++ urgencyLabel diff

def dueSysPrompt : String :=
  "You are a personal assistant deciding whether to send an urgent notification.\nReturn ONLY valid JSON: \x7b\"shouldNotify\": boolean, \"subject\": \"string\", \"message\": \"HTML string under 100 words\"\x7d"

/-- The subject line the due/overdue check would send for the oracle
reply `raw` (`⚠️ ${decision.subject || 'Tasks Need Attention'}`). -/
def dueFireSubject (raw : String) : String :=
  "⚠️ " ++ (match parseJSON raw with
    | some dec => jsOrStr (jsField dec "subject") "Tasks Need Attention"
    | none => "Tasks Need Attention")

/-- JOB 2, due/overdue check: one firing of the `cron.schedule` body.
`todayMs` is today's local midnight, `nowMs` the `Date.now()` reading at
the gate check, `sendMs` the timestamp written by `sendEmail`. -/
def dueCheckFiring (cfg : EmailCfg) (tasks : List Task) (log : List LogEntry)
    (todayMs nowMs sendMs : Int) (memory raw : String) : FireResult :=
  let urgentTasks := tasks.filter (dueTaskUrgent todayMs)
  if urgentTasks.length = 0 then ⟨[], log⟩
  else if recentlySent log "Due" (4 * 60 * 60 * 1000) nowMs then ⟨[], log⟩
  else
    let taskList := String.intercalate "\n" (urgentTasks.map (dueTaskLine todayMs))
    let usr := "These tasks are due soon or overdue:\n" ++ taskList ++
      "\n\nShould I interrupt the user? Only yes if something is truly urgent."
    let orAct := Action.oracle (withMemory dueSysPrompt memory) usr 256
    match parseJSON raw with
    | none => ⟨[orAct], log⟩
    | some dec =>
      if jsTruthyO (jsField dec "shouldNotify") then
        let r := sendEmail cfg log (dueFireSubject raw)
          (emailTemplate "Tasks Due Soon" (jsToStringU (jsField dec "message")) "#c0392b") sendMs
        ⟨orAct :: r.actions, r.log⟩
      else ⟨[orAct], log⟩

def focusSysPrompt : String :=
  "You are a focus coach. Return ONLY valid JSON:\n\x7b\"shouldSend\": boolean, \"message\": \"HTML string under 80 words\"\x7d\nBe encouraging, not nagging. Vary your tone."

/-- JOB 3, focus reminder: one firing of the `cron.schedule` body.
`dayOfWeek`/`hour` are the local weekday (0 = Sunday) and hour, and
`timeStr` the `toLocaleTimeString` rendering used in the subject. -/
def focusFiring (cfg : EmailCfg) (tasks : List Task) (log : List LogEntry)
    (dayOfWeek hour : Nat) (nowMs sendMs : Int) (memory timeStr raw : String) : FireResult :=
  let openTasks := tasks.filter (fun t => !t.done && t.priority ≠ "low")
  if openTasks.length = 0 then ⟨[], log⟩
  else if dayOfWeek = 0 ∨ dayOfWeek = 6 then ⟨[], log⟩
  else if recentlySent log "Focus" (2 * 60 * 60 * 1000) nowMs then ⟨[], log⟩
  else
    let taskList := String.intercalate "\n"
      ((openTasks.take 5).map (fun t => "- [" ++ t.priority ++ "] " ++ t.title))
    let timeContext :=
      if hour < 12 then "morning" else if hour < 15 then "early afternoon" else "late afternoon"
    let usr := "It\x27s " ++ timeContext ++ ". Tasks:\n" ++ taskList ++ "\n\nSend a brief focus nudge?"
    let orAct := Action.oracle (withMemory focusSysPrompt memory) usr 200
    match parseJSON raw with
    | none => ⟨[orAct], log⟩
    | some dec =>
      if jsTruthyO (jsField dec "shouldSend") then
        let r := sendEmail cfg log ("🎯 Focus Check-in — " ++ timeStr)
          (emailTemplate "Stay Focused" (jsToStringU (jsField dec "message")) "#4a7c28") sendMs
        ⟨orAct :: r.actions, r.log⟩
      else ⟨[orAct], log⟩

def weeklySysPrompt (dateLong : String) : String :=
  "You are a proactive personal assistant writing a weekly task suggestions email.\nFormat your response as HTML using <p>, <ul>, <li>, <strong> tags.\nKeep suggestions practical and specific. Today is " ++ dateLong ++ ".\nConsider: seasonal tasks, maintenance schedules (HVAC filters, smoke detectors, car service, etc.),\ntasks overdue based on completion history, and any patterns you notice."

/-- ` [${t.recurrence}]` when the recurrence is truthy. -/
def optRecur (t : Task) : String :=
  match t.recurrence with
  | some rc => if rc = "" then "" else " [" ++ rc ++ "]"
  | none => ""

/-- JOB 4, weekly suggestions: one firing of the `cron.schedule` body.
`cutoffMs` is the computed six-months-ago instant. -/
def weeklyFiring (cfg : EmailCfg) (tasks : List Task) (completionLog : List CompletionEntry)
    (goals : List Goal) (log : List LogEntry) (memory dateLong dateShort : String)
    (cutoffMs : Int) (reply : String) (sendMs : Int) : FireResult :=
  let openTasks := jsOrS (String.intercalate "\n"
    ((tasks.filter (fun t => !t.done)).map
      (fun t => "- [" ++ t.priority ++ "] " ++ t.title ++ optRecur t ++ optDue t))) "None"
  let recentHistory := jsOrS (String.intercalate "\n"
    ((completionLog.filter (fun l => decide (cutoffMs < l.completedAtMs))).map
      (fun l => "- \"" ++ l.taskTitle ++ "\" on " ++ l.completedAtDisp))) "No recent history."
  let goalList := jsOrS (String.intercalate "\n"
    ((goals.filter (fun g => !g.achieved)).map (fun g => "- " ++ g.title))) "None"
  let usr := "Here is the user\x27s current context. Suggest 3-5 tasks they might be missing or forgetting.\n\nCurrent open tasks:\n" ++
    openTasks ++ "\n\nLong-term goals:\n" ++ goalList ++
    "\n\nRecent completion history (last 6 months):\n" ++ recentHistory ++
    "\n\nSuggest tasks they should consider adding. Be specific — if you suggest checking a smoke detector, say how often that should happen. If you notice something from their history hasn\x27t recurred when it should have, flag it."
  let r := sendEmail cfg log ("💡 Weekly Task Suggestions — " ++ dateShort)
    (emailTemplate "Tasks You Might Be Missing" reply "#5a3e8c") sendMs
  ⟨.oracle (withMemory (weeklySysPrompt dateLong) memory) usr 600 :: r.actions, r.log⟩

/- ───────────────── manual trigger (POST /api/trigger/:job) ─────────────── -/

/-- The asynchronous body run by the manual morning trigger after it has
already responded: simplified context (no category, no goal percentage),
no skip-when-no-data condition, test subject line. -/
def triggerMorningBody (cfg : EmailCfg) (tasks : List Task) (goals : List Goal)
    (log : List LogEntry) (memory dateStr timeStr reply : String) (sendMs : Int) : FireResult :=
  let openTasks := tasks.filter (fun t => !t.done)
  let openGoals := goals.filter (fun g => !g.achieved)
  let taskCtx := jsOrS (String.intercalate "\n"
    (openTasks.map (fun t => "- [" ++ jsToUpper t.priority ++ "] " ++ t.title ++ optDue t))) "None"
  let goalCtx := jsOrS (String.intercalate "\n" (openGoals.map (fun g => "- " ++ g.title))) "None"
  let sys := "You are a personal assistant writing a test morning briefing. Format as HTML. Keep under 200 words. Today is " ++ dateStr ++ "."
  let usr := "Tasks:\n" ++ taskCtx ++ "\n\nGoals:\n" ++ goalCtx
  let r := sendEmail cfg log ("☀️ Test Briefing — " ++ timeStr)
    (emailTemplate "Test Morning Briefing" reply "#2d5016") sendMs
  ⟨.oracle (withMemory sys memory) usr 512 :: r.actions, r.log⟩

/-- `POST /api/trigger/:job`: reject unknown jobs, otherwise respond
immediately (`res.json` before any awaited work) and then run the body. -/
def triggerRoute (cfg : EmailCfg) (job : String) (tasks : List Task) (goals : List Goal)
    (log : List LogEntry) (memory dateStr timeStr reply : String) (sendMs : Int) : FireResult :=
  if job ≠ "morning" then ⟨[.respond false ("Unknown job: " ++ job)], log⟩
  else
    let r := triggerMorningBody cfg tasks goals log memory dateStr timeStr reply sendMs
    ⟨.respond true "Morning briefing triggered — check your email in ~30s" :: r.actions, r.log⟩

/- ──────────────────── traces of job firings (scheduler) ────────────────── -/

/-- One firing of some job, with the inputs that firing observes (store
contents, clock readings, locale renderings, the oracle's raw reply). -/
inductive JobEvent where
  | dueFire (tasks : List Task) (todayMs nowMs sendMs : Int) (memory raw : String)
  | focusFire (tasks : List Task) (dayOfWeek hour : Nat) (nowMs sendMs : Int)
      (memory timeStr raw : String)
  | morningFire (tasks : List Task) (goals : List Goal)
      (memory dateLong dateShort reply : String) (sendMs : Int)
  | weeklyFire (tasks : List Task) (completionLog : List CompletionEntry) (goals : List Goal)
      (memory dateLong dateShort : String) (cutoffMs : Int) (reply : String) (sendMs : Int)
  | triggerFire (tasks : List Task) (goals : List Goal)
      (memory dateStr timeStr reply : String) (sendMs : Int)

/-- The notification log after one firing. -/
def runEvent (cfg : EmailCfg) (log : List LogEntry) : JobEvent → List LogEntry
  | .dueFire tasks todayMs nowMs sendMs memory raw =>
    (dueCheckFiring cfg tasks log todayMs nowMs sendMs memory raw).log
  | .focusFire tasks dow hour nowMs sendMs memory timeStr raw =>
    (focusFiring cfg tasks log dow hour nowMs sendMs memory timeStr raw).log
  | .morningFire tasks goals memory dateLong dateShort reply sendMs =>
    (morningFiring cfg tasks goals log memory dateLong dateShort reply sendMs).log
  | .weeklyFire tasks completionLog goals memory dateLong dateShort cutoffMs reply sendMs =>
    (weeklyFiring cfg tasks completionLog goals log memory dateLong dateShort cutoffMs reply sendMs).log
  | .triggerFire tasks goals memory dateStr timeStr reply sendMs =>
    (triggerRoute cfg "morning" tasks goals log memory dateStr timeStr reply sendMs).log

/-- The notification log produced by a sequence of firings, each reading
the log state left by the previous one, starting from an empty log. -/
def runTrace (cfg : EmailCfg) (events : List JobEvent) : List LogEntry :=
  events.foldl (runEvent cfg) []

/-- The subject an event would log if it sends. -/
def eventSubject : JobEvent → String
  | .dueFire _ _ _ _ _ raw => dueFireSubject raw
  | .focusFire _ _ _ _ _ _ timeStr _ => "🎯 Focus Check-in — " ++ timeStr
  | .morningFire _ _ _ _ dateShort _ _ => "☀️ Morning Briefing — " ++ dateShort
  | .weeklyFire _ _ _ _ _ dateShort _ _ _ => "💡 Weekly Task Suggestions — " ++ dateShort
  | .triggerFire _ _ _ _ timeStr _ _ => "☀️ Test Briefing — " ++ timeStr

/-- The tag an event's own cool-down gate scans for, if it has a gate. -/
def gatedTag : JobEvent → Option String
  | .dueFire _ _ _ _ _ _ => some "Due"
  | .focusFire _ _ _ _ _ _ _ _ => some "Focus"
  | _ => none

/-- The cool-down window of the event's own gate, if it has one. -/
def gateCool : JobEvent → Option Int
  | .dueFire _ _ _ _ _ _ => some (4 * 60 * 60 * 1000)
  | .focusFire _ _ _ _ _ _ _ _ => some (2 * 60 * 60 * 1000)
  | _ => none

/-- The `Date.now()` reading at the event's gate check (for ungated
events, its send instant). -/
def eventNow : JobEvent → Int
  | .dueFire _ _ nowMs _ _ _ => nowMs
  | .focusFire _ _ _ nowMs _ _ _ _ => nowMs
  | .morningFire _ _ _ _ _ _ sendMs => sendMs
  | .weeklyFire _ _ _ _ _ _ _ _ sendMs => sendMs
  | .triggerFire _ _ _ _ _ _ sendMs => sendMs

/-- The `new Date()` instant the event's `sendEmail` would log. -/
def eventSend : JobEvent → Int
  | .dueFire _ _ _ sendMs _ _ => sendMs
  | .focusFire _ _ _ _ sendMs _ _ _ => sendMs
  | .morningFire _ _ _ _ _ _ sendMs => sendMs
  | .weeklyFire _ _ _ _ _ _ _ _ sendMs => sendMs
  | .triggerFire _ _ _ _ _ _ sendMs => sendMs

/-- The spec's cool-down separation for one notification kind: any two
log entries carrying the kind's tag (in log order) are at least the
cool-down apart. -/
def cooldownSeparated (tag : String) (cool : Int) (log : List LogEntry) : Prop :=
  log.Pairwise (fun a b =>
    strIncludes a.type tag = true → strIncludes b.type tag = true → a.sentAt + cool ≤ b.sentAt)

/- ──────────────── voice webhook (GET /webhook/routine/:cmd) ────────────── -/

/-- The request data the routine webhook can observe.  `xApiSecret` is
the `x-api-secret` header (this route is registered without
`requireAuth`, so the handler never reads it). -/
structure RoutineReq where
  xApiSecret : Option String
  queryTask : Option String
  queryQ : Option String

/-- `req.query.task || req.query.q || ''`. -/
def routineExtra (req : RoutineReq) : String :=
  jsOrOS req.queryTask (jsOrOS req.queryQ "")

/-- `{high:0,medium:1,low:2}[p]` (a priority outside the enum compares as
`NaN` in JavaScript, which the sort treats as no ordering information;
modelled as the middle rank). -/
def routinePriorityRank (p : String) : Int :=
  if p = "high" then 0 else if p = "medium" then 1 else if p = "low" then 2 else 1

/-- Digits of an integer lexeme to its value. -/
def digitsToNat (ds : List Char) : Nat := ds.foldl (fun a c => 10 * a + digitVal c) 0

/-- An integer-valued number lexeme's value (the goal amounts the UI
stores are integers; other number shapes fall back to `none`). -/
def lexToInt (lex : String) : Option Int :=
  match lex.data with
  | '-' :: ds => if ds ≠ [] ∧ ds.all Char.isDigit then some (-(digitsToNat ds : Int)) else none
  | ds => if ds ≠ [] ∧ ds.all Char.isDigit then some ((digitsToNat ds : Int)) else none

/-- `Math.round((g.saved / g.target) * 100)` of a goal object, for the
integer amounts the UI stores. -/
def goalPctText (g : Json) : String :=
  match jsField g "target", jsField g "saved" with
  | some (Json.num tl), some (Json.num sl) =>
    (match lexToInt tl, lexToInt sl with
     | some tv, some sv => if tv ≠ 0 then toString (jsRoundPct sv tv) else "NaN"
     | _, _ => "NaN")
  | _, _ => "NaN"

/-- `dbGet(key) || []`: a missing row reads as `null` hence `[]`, any
falsy stored value likewise; a stored-text parse error propagates
(`none` = throw). -/
def dbGetOrEmptyArr (s : Store) (k : String) : Option Json :=
  match dbGet s k with
  | .null => some (Json.arr [])
  | .error => none
  | .value v => some (if jsTruthy v then v else Json.arr [])

/-- Treat a value as a JavaScript array (`.filter`/spread on anything
else throws). -/
def asArr : Json → Option (List Json)
  | .arr l => some l
  | _ => none

/-- The task object built by the `add` voice command.  `idLex` is the
number `Date.now() + Math.random()` as a lexeme; absent oracle fields
become `undefined` properties, which `JSON.stringify` omits. -/
def optField (k : String) (o : Option Json) : List (String × Json) :=
  match o with
  | some v => [(k, v)]
  | none => []

def mkRoutineTask (idLex : String) (parsed : Json) (createdAt : String) : Json :=
  Json.obj (("id", Json.num idLex) ::
    optField "title" (jsField parsed "title") ++
    optField "priority" (jsField parsed "priority") ++
    optField "category" (jsField parsed "category") ++
    optField "reason" (jsField parsed "reason") ++
    [("dueDate", Json.null), ("done", Json.bool false), ("createdAt", Json.str createdAt)])

/-- `buildRoutineResponse(cmd, extra)`: the spoken text and the store
after the command (`none` = the handler's `try` block throws).  `reply`
is the oracle's raw reply for the commands that consult it, `nowMs` the
current instant. -/
def buildRoutineResponse (store : Store) (cmd extra reply idLex createdAt : String)
    (nowMs : Int) : Option (String × Store) := do
  let tasksJ ← dbGetOrEmptyArr store "tasks"
  let goalsJ ← dbGetOrEmptyArr store "goals"
  if cmd = "tasks" then
    let ts ← asArr tasksJ
    let openT := (ts.filter (fun t => !(jsTruthyO (jsField t "done")))).mergeSort
      (fun a b => routinePriorityRank (jsToStringU (jsField a "priority")) ≤
        routinePriorityRank (jsToStringU (jsField b "priority")))
    let openT := openT.take 5
    if openT.length = 0 then some ("You have no open tasks. Nice work!", store)
    else
      let listed := String.intercalate ". " (openT.mapIdx
        (fun i t => toString (i + 1) ++ ": " ++ jsToStringU (jsField t "title")))
      some ("You have " ++ toString openT.length ++ " open task" ++
        (if openT.length ≠ 1 then "s" else "") ++ ". " ++ listed ++ ".", store)
  else if cmd = "focus" then
    let ts ← asArr tasksJ
    let openT := (ts.filter (fun t => !(jsTruthyO (jsField t "done")))).take 8
    if openT.length = 0 then some ("You have no open tasks. You\x27re all caught up!", store)
    else some (reply, store)
  else if cmd = "goals" then
    let gs ← asArr goalsJ
    let openG := gs.filter (fun g => !(jsTruthyO (jsField g "achieved")))
    if openG.length = 0 then some ("You haven\x27t set any long-term goals yet.", store)
    else
      let summaries := (openG.take 3).map (fun g =>
        if jsTruthyO (jsField g "target") && jsTruthyO (jsField g "saved") then
          jsToStringU (jsField g "title") ++ " at " ++ goalPctText g ++ "%"
        else jsToStringU (jsField g "title"))
      match summaries with
      | [only] => some ("Your goal: " ++ only ++ ".", store)
      | _ =>
        some ("Your goals: " ++ String.intercalate ", " summaries.dropLast ++ ", and " ++
          (summaries.getLast?.getD "") ++ ".", store)
  else if cmd = "briefing" then
    let ts ← asArr tasksJ
    let openT := ts.filter (fun t => !(jsTruthyO (jsField t "done")))
    let high := (openT.filter (fun t => jsField t "priority" = some (Json.str "high"))).length
    let soon := openT.filter (fun t =>
      match jsField t "dueDate" with
      | some (Json.str ds) =>
        if ds = "" then false
        else match dueDateValueMs ds with
          | some ms => decide (jsRoundDayDiff (ms - nowMs) ≤ 1)
          | none => false
      | _ => false)
    let base := "Good morning. You have " ++ toString openT.length ++ " open task" ++
      (if openT.length ≠ 1 then "s" else "")
    let base := if high > 0 then base ++ ", " ++ toString high ++ " high priority" else base
    let base := if soon.length ≠ 0 then
      base ++ ", and " ++ toString soon.length ++ " due today or tomorrow" else base
    let base := base ++ ". "
    let base := if openT.length > 0 then
      base ++ "Your top task is: " ++ jsToStringU (jsField (openT.headI) "title") ++ "."
      else base
    some (base, store)
  else if cmd = "add" then
    if extra = "" then
      some ("No task text received. Try adding the task in the app instead.", store)
    else
      match parseJSON reply with
      | none => none
      | some parsed =>
        let ts ← asArr tasksJ
        let newTask := mkRoutineTask idLex parsed createdAt
        let updated := Json.arr (ts ++ [newTask])
        some ("Added \"" ++ jsToStringU (jsField parsed "title") ++ "\" as a " ++
          jsToStringU (jsField parsed "priority") ++ " priority task.",
          dbSet store "tasks" updated)
  else some ("I can help with: tasks, focus, goals, or briefing.", store)

/-- `GET /webhook/routine/:cmd` (registered without `requireAuth`): build
the spoken response, catching any error with the apology text. -/
def handleRoutineGet (store : Store) (req : RoutineReq) (cmd : String)
    (reply idLex createdAt : String) (nowMs : Int) : String × Store :=
  match buildRoutineResponse store cmd (routineExtra req) reply idLex createdAt nowMs with
  | some r => r
  | none => ("Sorry, something went wrong. Please try again.", store)

/- ─────────────── action classifiers and concrete scenario data ─────────── -/

/-- Is an action an email delivery? -/
def isEmailAct : Action → Bool
  | .email _ _ => true
  | _ => false

/-- Is an action an oracle call? -/
def isOracleAct : Action → Bool
  | .oracle _ _ _ => true
  | _ => false

/-- A configured notifier. -/
def cfgOn : EmailCfg := ⟨some "u", some "p"⟩

/-- An open task with no due date (qualifies for the focus reminder). -/
def focusTaskEx : Task := ⟨"Write report", "high", "work", none, none, false⟩

/-- An open task due on day 0 of the model's day scale. -/
def dueTaskEx : Task := ⟨"Pay bills", "high", "home", some "1970-01-01", none, false⟩

/-- An open task due on day 1 of the model's day scale. -/
def c5TaskEx : Task := ⟨"Pay rent", "high", "home", some "1970-01-02", none, false⟩

/-- An oracle reply approving a focus nudge. -/
def focusTrueRaw : String := "\x7b\"shouldSend\": true, \"message\": \"Go\"\x7d"

/-- An oracle reply approving a due alert, with a well-behaved subject. -/
def dueTrueRaw : String :=
  "\x7b\"shouldNotify\": true, \"subject\": \"Tasks due\", \"message\": \"m\"\x7d"

/-- An oracle reply approving a due alert whose free-text subject happens
to contain the focus kind's tag. -/
def dueFocusRaw : String :=
  "\x7b\"shouldNotify\": true, \"subject\": \"Focus: pay bills now\", \"message\": \"m\"\x7d"

/-- An oracle reply whose judgment flag is a truthy string, not a boolean. -/
def dueStrRaw : String :=
  "\x7b\"shouldNotify\": \"no\", \"subject\": \"S\", \"message\": \"m\"\x7d"

/-- A focus firing at 9:00, then a due firing one minute later whose
oracle-chosen subject contains `Focus`. -/
def ce1Trace : List JobEvent :=
  [ .focusFire [focusTaskEx] 2 9 0 0 "" "9:00 AM" focusTrueRaw,
    .dueFire [dueTaskEx] 0 60000 60000 "" dueFocusRaw ]

/-- A single gated due firing (used to witness the amended cool-down
theorem on a concrete trace). -/
def w1Trace : List JobEvent := [.dueFire [dueTaskEx] 0 0 0 "" dueTrueRaw]

/-- A store whose every key holds the text `0` (for the idempotence
witness). -/
def demoStore : Store := fun _ => some "0"

/-- The oracle's categorisation reply for the voice `add` witness. -/
def addReplyEx : String :=
  "\x7b\"title\": \"Buy milk\", \"priority\": \"medium\", \"category\": \"errand\", \"reason\": \"r\"\x7d"

/-- The parsed form of `addReplyEx`. -/
def addParsedEx : Json :=
  Json.obj [("title", Json.str "Buy milk"), ("priority", Json.str "medium"),
    ("category", Json.str "errand"), ("reason", Json.str "r")]

/- ───────────── parser-consumption predicates (for the C3 analysis) ─────── -/

/-- The parsed prefix of a successful parse ends in a digit just before `r`. -/
def EndsDigit (cs r : List Char) : Prop :=
  ∃ pre d, cs = pre ++ d :: r ∧ d.isDigit = true

/-- A successful parse consumed a nonempty prefix whose last character is
not a backtick. -/
def ConsumedTo (cs r : List Char) : Prop :=
  ∃ pre c, cs = pre ++ c :: r ∧ ¬ c = btick

/-- Characters that may legitimately follow a JSON number inside
stringified output (start of `rest` in the round-trip lemmas). -/
def NumDelim (rest : List Char) : Prop :=
  ∀ d tl, rest = d :: tl → d = ',' ∨ d = ']' ∨ d = '}'

/-- The text of the second and later array elements (each preceded by a
comma), as emitted by `stringifyElems`. -/
def arrTail : List Json → List Char
  | [] => []
  | v :: vs => ',' :: (stringifyJson v ++ arrTail vs)

/-- The text of the second and later object members (each preceded by a
comma), as emitted by `stringifyMembers`. -/
def objTail : List (String × Json) → List Char
  | [] => []
  | (k, v) :: vs =>
    ',' :: ('"' :: (escapeList k.data ++ '"' :: ':' :: (stringifyJson v ++ objTail vs)))

/-- Round-trip property of one value: its stringification followed by any
delimiter-headed tail parses back to exactly the value. -/
def RT (v : Json) : Prop :=
  ∀ (fuel : Nat) (rest : List Char),
    2 * (stringifyJson v).length + 1 ≤ fuel → NumDelim rest →
    parseValue fuel (stringifyJson v ++ rest) = some (v, rest)

/- ═══════════════════════════ claim theorems ════════════════════════════ -/

/- ──────────────── parser lemmas: fence stripping (C3) ─────────────── -/

theorem leadsWith_iff (pat : List Char) : ∀ cs : List Char,
    leadsWith pat cs = true ↔ ∃ tail, cs = pat ++ tail := by
  induction pat with
  | nil => intro cs; simp [leadsWith]
  | cons p ps ih =>
    intro cs
    cases cs with
    | nil => simp [leadsWith]
    | cons c w =>
      simp only [leadsWith, Bool.and_eq_true, beq_iff_eq, ih, List.cons_append, List.cons.injEq]
      constructor
      · rintro ⟨rfl, tail, rfl⟩
        exact ⟨tail, rfl, rfl⟩
      · rintro ⟨tail, rfl, rfl⟩
        exact ⟨rfl, tail, rfl⟩

theorem dropWhile_head_false (p : Char → Bool) :
    ∀ (l : List Char) (c : Char) (w : List Char), l.dropWhile p = c :: w → p c = false := by
  intro l
  induction l with
  | nil => intro c w h; simp at h
  | cons a t ih =>
    intro c w h
    by_cases hp : p a = true
    · rw [List.dropWhile_cons, if_pos hp] at h
      exact ih c w h
    · rw [List.dropWhile_cons, if_neg hp] at h
      cases h
      simpa using hp

theorem trimL_decomp (cs : List Char) :
    cs.dropWhile jsWsChar =
      trimL cs ++ ((cs.dropWhile jsWsChar).reverse.takeWhile jsWsChar).reverse := by
  have h0 : (cs.dropWhile jsWsChar).reverse =
      ((cs.dropWhile jsWsChar).reverse.takeWhile jsWsChar) ++
      ((cs.dropWhile jsWsChar).reverse.dropWhile jsWsChar) :=
    (List.takeWhile_append_dropWhile _ _).symm
  have h1 := congrArg List.reverse h0
  unfold trimL
  rw [List.reverse_reverse, List.reverse_append] at h1
  exact h1

theorem trimL_head_false (cs : List Char) (c : Char) (w : List Char)
    (h : trimL cs = c :: w) : jsWsChar c = false := by
  have h1 := trimL_decomp cs
  rw [h] at h1
  exact dropWhile_head_false jsWsChar cs c _ (by simpa using h1)

theorem dropWhile_head?_false (p : Char → Bool) :
    ∀ (l : List Char) (c : Char), (l.dropWhile p).head? = some c → p c = false := by
  intro l
  induction l with
  | nil => intro c h; simp at h
  | cons a t ih =>
    intro c h
    by_cases hp : p a = true
    · rw [List.dropWhile_cons, if_pos hp] at h
      exact ih c h
    · rw [List.dropWhile_cons, if_neg hp] at h
      simp only [List.head?_cons, Option.some.injEq] at h
      subst h
      simpa using hp

theorem trimL_getLast_false (cs : List Char) (c : Char)
    (h : (trimL cs).getLast? = some c) : jsWsChar c = false := by
  unfold trimL at h
  rw [List.getLast?_reverse] at h
  exact dropWhile_head?_false jsWsChar _ c h

theorem jsonWs_imp_jsWs (c : Char) (h : jsonWsChar c = true) : jsWsChar c = true := by
  simp only [jsonWsChar, Bool.or_eq_true, decide_eq_true_eq] at h
  rcases h with ((rfl | rfl) | rfl) | rfl <;> decide

theorem trimL_append_newline (cs : List Char) : trimL (cs ++ ['\n']) = trimL cs := by
  unfold trimL
  rw [List.dropWhile_append]
  rcases hX : cs.dropWhile jsWsChar with _ | ⟨c, w⟩
  · simp [jsWsChar]
  · simp only [List.isEmpty_cons, ite_false, Bool.false_eq_true]
    rw [List.reverse_append]
    simp only [List.reverse_cons, List.reverse_nil, List.nil_append, List.singleton_append]
    rw [List.dropWhile_cons]
    simp [jsWsChar]

theorem head?_reverse_eq_getLast? (l : List Char) : l.reverse.head? = l.getLast? := by
  have h := List.getLast?_reverse l.reverse
  rw [List.reverse_reverse] at h
  exact h.symm

theorem trimL_fixed_of_ends (cs : List Char) (c1 c2 : Char) (h1 : jsWsChar c1 = false)
    (h2 : jsWsChar c2 = false) (hh : cs.head? = some c1) (hl : cs.getLast? = some c2) :
    trimL cs = cs := by
  unfold trimL
  rcases cs with _ | ⟨a, t⟩
  · rfl
  · have ha : a = c1 := by simpa using hh
    subst ha
    rw [List.dropWhile_cons, if_neg (by simp [h1])]
    rcases hrev : (a :: t).reverse with _ | ⟨b, u⟩
    · simp at hrev
    · have hb : b = c2 := by
        have hx := head?_reverse_eq_getLast? (a :: t)
        rw [hrev] at hx
        rw [hl] at hx
        simpa using hx
      subst hb
      rw [List.dropWhile_cons, if_neg (by simp [h2]), ← hrev, List.reverse_reverse]

theorem wrap_head (t : List Char) :
    ("```json\n".data ++ t ++ "\n```".data).head? = some btick := by
  rw [show ("```json\n".data ++ t ++ "\n```".data : List Char) =
    '\x60' :: ("``json\n".data ++ t ++ "\n```".data) by simp]
  simp only [List.head?_cons]
  decide

theorem wrap_getLast (t : List Char) :
    ("```json\n".data ++ t ++ "\n```".data).getLast? = some btick := by
  rw [List.getLast?_append_of_ne_nil _ (by decide)]
  decide

theorem trimL_wrap (t : List Char) :
    trimL ("```json\n".data ++ t ++ "\n```".data) = "```json\n".data ++ t ++ "\n```".data :=
  trimL_fixed_of_ends _ btick btick (by decide) (by decide) (wrap_head t) (wrap_getLast t)

theorem wrap_leads (t : List Char) :
    leadsWith fenceMark ("```json\n".data ++ t ++ "\n```".data) = true := by
  rw [leadsWith_iff]
  refine ⟨"json\n".data ++ t ++ "\n```".data, ?_⟩
  rw [show ("```json\n".data : List Char) = "```".data ++ "json\n".data from rfl]
  simp [fenceMark, List.append_assoc]

theorem wrap_indexOf_nl (t : List Char) :
    jsIndexOfChar ("```json\n".data ++ t ++ "\n```".data) '\n' = 7 := by
  rw [show ("```json\n".data ++ t ++ "\n```".data : List Char) =
    '\x60' :: '\x60' :: '\x60' :: 'j' :: 's' :: 'o' :: 'n' :: '\n' :: (t ++ "\n```".data) by simp]
  simp [jsIndexOfChar]

theorem wrap_slice_after_nl (t : List Char) :
    jsSliceFrom ("```json\n".data ++ t ++ "\n```".data) (7 + 1) = t ++ "\n```".data := by
  rw [jsSliceFrom, if_neg (by norm_num)]
  rw [show ((7 + 1 : Int)).toNat = "```json\n".data.length from rfl]
  rw [List.append_assoc, List.drop_left]

theorem trailsWith_fence_append (t : List Char) :
    trailsWith fenceMark (t ++ "\n```".data) = true := by
  rw [trailsWith, leadsWith_iff]
  refine ⟨'\n' :: t.reverse, ?_⟩
  rw [List.reverse_append]
  rfl

theorem lastIndexOf_fence (t : List Char) :
    jsLastIndexOfSub (t ++ "\n```".data) fenceMark = (t.length : Int) + 1 := by
  induction t with
  | nil => decide
  | cons c w ih =>
    rw [List.cons_append, jsLastIndexOfSub, ih, if_pos (by omega)]
    simp only [List.length_cons]
    push_cast
    omega

theorem sliceTo_fence (t : List Char) :
    jsSliceTo (t ++ "\n```".data) ((t.length : Int) + 1) = t ++ ['\n'] := by
  rw [jsSliceTo, if_neg (by omega)]
  rw [show (((t.length : Int)) + 1).toNat = t.length + 1 by omega]
  rw [List.take_append_eq_append_take, List.take_of_length_le (by omega)]
  simp

theorem fenceStrip_wrap (t : List Char) :
    fenceStrip ("```json\n".data ++ t ++ "\n```".data) = trimL t := by
  simp only [fenceStrip]
  rw [trimL_wrap, wrap_leads t, if_pos rfl, wrap_indexOf_nl, wrap_slice_after_nl,
    trailsWith_fence_append, if_pos rfl, lastIndexOf_fence, sliceTo_fence]
  exact trimL_append_newline t

theorem fenceStrip_plain (cs : List Char) (hlead : leadsWith fenceMark (trimL cs) = false)
    (htrail : trailsWith fenceMark (trimL cs) = false) :
    fenceStrip cs = trimL cs := by
  simp only [fenceStrip]
  rw [hlead]
  simp only [Bool.false_eq_true, if_false]
  rw [htrail]
  simp

theorem consumedTo_append_left (A : List Char) {l r : List Char} (h : ConsumedTo l r) :
    ConsumedTo (A ++ l) r := by
  obtain ⟨pre, c, rfl, hc⟩ := h
  exact ⟨A ++ pre, c, by simp, hc⟩

theorem consumedTo_trans {a b c : List Char} (h1 : ConsumedTo a b) (h2 : ConsumedTo b c) :
    ConsumedTo a c := by
  obtain ⟨p1, x, rfl, hx⟩ := h1
  obtain ⟨p2, y, rfl, hy⟩ := h2
  exact ⟨p1 ++ x :: p2, y, by simp, hy⟩

theorem skipWs_decomp (cs : List Char) : cs = cs.takeWhile jsonWsChar ++ skipWs cs :=
  (List.takeWhile_append_dropWhile _ _).symm

theorem consumedTo_of_skipWs {cs : List Char} {c : Char} {rest r : List Char}
    (hs : skipWs cs = c :: rest) (hc : ¬ c = btick) (h : ConsumedTo rest r) :
    ConsumedTo cs r := by
  rw [skipWs_decomp cs, hs]
  exact consumedTo_append_left _ (consumedTo_trans ⟨[], c, rfl, hc⟩ h)

theorem consumedTo_skipWs_here {cs : List Char} {c : Char} {r : List Char}
    (hs : skipWs cs = c :: r) (hc : ¬ c = btick) : ConsumedTo cs r := by
  rw [skipWs_decomp cs, hs]
  exact consumedTo_append_left _ ⟨[], c, rfl, hc⟩

theorem consumedTo_of_skipWs_all {cs : List Char} {c : Char} {rest r : List Char}
    (hs : skipWs cs = c :: rest) (h : ConsumedTo (c :: rest) r) : ConsumedTo cs r := by
  rw [skipWs_decomp cs, hs]
  exact consumedTo_append_left _ h

theorem digit_not_btick {c : Char} (h : c.isDigit = true) : ¬ c = btick := by
  intro he
  rw [he] at h
  exact absurd h (by decide)

theorem endsDigit_consumedTo {cs r : List Char} (h : EndsDigit cs r) : ConsumedTo cs r := by
  obtain ⟨pre, d, rfl, hd⟩ := h
  exact ⟨pre, d, rfl, digit_not_btick hd⟩

theorem endsDigit_append_left (A : List Char) {l r : List Char} (h : EndsDigit l r) :
    EndsDigit (A ++ l) r := by
  obtain ⟨pre, d, rfl, hd⟩ := h
  exact ⟨A ++ pre, d, by simp, hd⟩

theorem endsDigit_build (pre : List Char) (d : Char) (hd : d.isDigit = true)
    (a : List Char) (ha : ∀ c ∈ a, c.isDigit = true) (r : List Char) :
    EndsDigit (pre ++ (d :: a) ++ r) r := by
  have hne : (d :: a) ≠ ([] : List Char) := by simp
  have hdec : d :: a = (d :: a).dropLast ++ [(d :: a).getLast hne] :=
    (List.dropLast_append_getLast hne).symm
  refine ⟨pre ++ (d :: a).dropLast, (d :: a).getLast hne, ?_, ?_⟩
  · conv_lhs => rw [hdec]
    simp [List.append_assoc]
  · have hm := List.getLast_mem hne
    rcases List.mem_cons.mp hm with he | he
    · rw [he]; exact hd
    · exact ha _ he

theorem spanDigits_append (t : List Char) : t = (spanDigits t).1 ++ (spanDigits t).2 :=
  (List.takeWhile_append_dropWhile _ _).symm

theorem spanDigits_digits (t : List Char) : ∀ c ∈ (spanDigits t).1, c.isDigit = true := by
  intro c hc
  rw [spanDigits] at hc
  exact List.mem_takeWhile_imp hc

theorem parseFracPart_consume (cs f r : List Char) (h : parseFracPart cs = some (f, r)) :
    cs = f ++ r ∧ (f = [] ∨ EndsDigit cs r) := by
  rcases cs with _ | ⟨c, t⟩
  · rw [parseFracPart] at h
    simp only [Option.some.injEq, Prod.mk.injEq] at h
    obtain ⟨rfl, rfl⟩ := h
    exact ⟨rfl, .inl rfl⟩
  · rw [parseFracPart] at h
    by_cases hc : c = '.'
    · rw [if_pos hc] at h
      by_cases hp : (spanDigits t).1 = []
      · rw [if_pos hp] at h
        simp at h
      · rw [if_neg hp] at h
        simp only [Option.some.injEq, Prod.mk.injEq] at h
        obtain ⟨rfl, rfl⟩ := h
        subst hc
        refine ⟨?_, ?_⟩
        · conv_lhs => rw [spanDigits_append t]
          rfl
        · right
          rcases hsp : (spanDigits t).1 with _ | ⟨d, a⟩
          · exact absurd hsp hp
          have hEq : '.' :: t = ['.'] ++ (d :: a) ++ (spanDigits t).2 := by
            conv_lhs => rw [spanDigits_append t, hsp]
            rfl
          rw [hEq]
          refine endsDigit_build ['.'] d ?_ a ?_ _
          · exact spanDigits_digits t d (by rw [hsp]; exact List.mem_cons_self d a)
          · intro x hx
            exact spanDigits_digits t x (by rw [hsp]; exact List.mem_cons_of_mem d hx)
    · rw [if_neg hc] at h
      simp only [Option.some.injEq, Prod.mk.injEq] at h
      obtain ⟨rfl, rfl⟩ := h
      exact ⟨rfl, .inl rfl⟩

theorem parseExpPart_consume (cs e r : List Char) (h : parseExpPart cs = some (e, r)) :
    cs = e ++ r ∧ (e = [] ∨ EndsDigit cs r) := by
  rcases cs with _ | ⟨c, t⟩
  · rw [parseExpPart] at h
    simp only [Option.some.injEq, Prod.mk.injEq] at h
    obtain ⟨rfl, rfl⟩ := h
    exact ⟨rfl, .inl rfl⟩
  · rcases t with _ | ⟨s, t2⟩
    · rw [parseExpPart] at h
      by_cases hc : c = 'e' ∨ c = 'E'
      · rw [if_pos hc] at h
        simp at h
      · rw [if_neg hc] at h
        simp only [Option.some.injEq, Prod.mk.injEq] at h
        obtain ⟨rfl, rfl⟩ := h
        exact ⟨rfl, .inl rfl⟩
    rw [parseExpPart] at h
    by_cases hc : c = 'e' ∨ c = 'E'
    · rw [if_pos hc] at h
      by_cases hs2 : s = '+' ∨ s = '-'
      · rw [if_pos hs2] at h
        by_cases hp : (spanDigits t2).1 = []
        · rw [if_pos hp] at h
          simp at h
        · rw [if_neg hp] at h
          simp only [Option.some.injEq, Prod.mk.injEq] at h
          obtain ⟨rfl, rfl⟩ := h
          refine ⟨?_, ?_⟩
          · conv_lhs => rw [spanDigits_append t2]
            rfl
          · right
            rcases hsp : (spanDigits t2).1 with _ | ⟨d, a⟩
            · exact absurd hsp hp
            have hEq : c :: s :: t2 = [c, s] ++ (d :: a) ++ (spanDigits t2).2 := by
              conv_lhs => rw [spanDigits_append t2, hsp]
              rfl
            rw [hEq]
            refine endsDigit_build [c, s] d ?_ a ?_ _
            · exact spanDigits_digits t2 d (by rw [hsp]; exact List.mem_cons_self d a)
            · intro x hx
              exact spanDigits_digits t2 x (by rw [hsp]; exact List.mem_cons_of_mem d hx)
      · rw [if_neg hs2] at h
        by_cases hp : (spanDigits (s :: t2)).1 = []
        · rw [if_pos hp] at h
          simp at h
        · rw [if_neg hp] at h
          simp only [Option.some.injEq, Prod.mk.injEq] at h
          obtain ⟨rfl, rfl⟩ := h
          refine ⟨?_, ?_⟩
          · conv_lhs => rw [show (s :: t2 : List Char) = (spanDigits (s :: t2)).1 ++ (spanDigits (s :: t2)).2 from spanDigits_append (s :: t2)]
            rfl
          · right
            rcases hsp : (spanDigits (s :: t2)).1 with _ | ⟨d, a⟩
            · exact absurd hsp hp
            have hEq : c :: s :: t2 = [c] ++ (d :: a) ++ (spanDigits (s :: t2)).2 := by
              conv_lhs => rw [show (s :: t2 : List Char) = (spanDigits (s :: t2)).1 ++ (spanDigits (s :: t2)).2 from spanDigits_append (s :: t2), hsp]
              rfl
            rw [hEq]
            refine endsDigit_build [c] d ?_ a ?_ _
            · exact spanDigits_digits (s :: t2) d (by rw [hsp]; exact List.mem_cons_self d a)
            · intro x hx
              exact spanDigits_digits (s :: t2) x (by rw [hsp]; exact List.mem_cons_of_mem d hx)
    · rw [if_neg hc] at h
      simp only [Option.some.injEq, Prod.mk.injEq] at h
      obtain ⟨rfl, rfl⟩ := h
      exact ⟨rfl, .inl rfl⟩

theorem parseIntPart_consume (cs i r : List Char) (h : parseIntPart cs = some (i, r)) :
    cs = i ++ r ∧ EndsDigit cs r := by
  rcases cs with _ | ⟨d, t⟩
  · simp [parseIntPart] at h
  · rw [parseIntPart] at h
    by_cases h0 : d = '0'
    · rw [if_pos h0] at h
      simp only [Option.some.injEq, Prod.mk.injEq] at h
      obtain ⟨rfl, rfl⟩ := h
      subst h0
      exact ⟨rfl, ⟨[], '0', rfl, by decide⟩⟩
    · rw [if_neg h0] at h
      by_cases hd : d.isDigit
      · rw [if_pos hd] at h
        simp only [Option.some.injEq, Prod.mk.injEq] at h
        obtain ⟨rfl, rfl⟩ := h
        refine ⟨?_, ?_⟩
        · conv_lhs => rw [spanDigits_append t]
          rfl
        · have hEq : d :: t = [] ++ (d :: (spanDigits t).1) ++ (spanDigits t).2 := by
            conv_lhs => rw [spanDigits_append t]
            rfl
          rw [hEq]
          exact endsDigit_build [] d hd (spanDigits t).1 (spanDigits_digits t) _
      · rw [if_neg hd] at h
        simp at h


theorem parseNumberTail_consume_core (cs ipart r1 fpart r2 epart r3 : List Char)
    (hi : parseIntPart cs = some (ipart, r1))
    (hf : parseFracPart r1 = some (fpart, r2))
    (he : parseExpPart r2 = some (epart, r3)) : EndsDigit cs r3 := by
  obtain ⟨hieq, hiend⟩ := parseIntPart_consume cs ipart r1 hi
  obtain ⟨hfeq, hfend⟩ := parseFracPart_consume r1 fpart r2 hf
  obtain ⟨heeq, heend⟩ := parseExpPart_consume r2 epart r3 he
  rcases heend with rfl | hee
  · simp only [List.nil_append] at heeq
    subst heeq
    rcases hfend with rfl | hfe
    · simp only [List.nil_append] at hfeq
      subst hfeq
      rw [hieq] at hiend ⊢
      exact hiend
    · rw [hieq]
      exact endsDigit_append_left ipart hfe
  · rw [hieq, hfeq]
    exact endsDigit_append_left ipart (endsDigit_append_left fpart hee)

theorem parseNumberTail_consume (sign cs lex r : List Char)
    (h : parseNumberTail sign cs = some (lex, r)) : EndsDigit cs r := by
  rw [parseNumberTail] at h
  split at h
  · simp at h
  rename_i ipart r1 hi
  split at h
  · simp at h
  rename_i fpart r2 hf
  split at h
  · simp at h
  rename_i epart r3 he
  simp only [Option.some.injEq, Prod.mk.injEq] at h
  obtain ⟨_, rfl⟩ := h
  exact parseNumberTail_consume_core cs ipart r1 fpart r2 epart _ hi hf he

theorem parseNumber_consume (cs lex r : List Char) (h : parseNumber cs = some (lex, r)) :
    ConsumedTo cs r := by
  rcases cs with _ | ⟨c, t⟩
  · rw [parseNumber] at h; simp at h
  · rw [parseNumber] at h
    by_cases hc : c = '-'
    · rw [if_pos hc] at h
      exact consumedTo_append_left [c] (endsDigit_consumedTo (parseNumberTail_consume ['-'] t lex r h))
    · rw [if_neg hc] at h
      exact endsDigit_consumedTo (parseNumberTail_consume [] (c :: t) lex r h)

theorem expectLit_consume (pat : List Char) (res v : Json) (cs r : List Char)
    (h : expectLit pat res cs = some (v, r)) : cs = pat ++ r := by
  rw [expectLit] at h
  by_cases hl : leadsWith pat cs = true
  · rw [if_pos hl] at h
    obtain ⟨tail, rfl⟩ := (leadsWith_iff pat cs).mp hl
    simp only [Option.some.injEq, Prod.mk.injEq] at h
    obtain ⟨_, hr⟩ := h
    rw [← hr, List.drop_left]
  · rw [if_neg hl] at h
    simp at h

theorem parseStrBody_cons_eq (n : Nat) (c : Char) (cs : List Char) :
    parseStrBody (n + 1) (c :: cs) =
      (if c = '"' then some ([], cs)
       else if c = '\\' then
         match cs with
         | [] => none
         | e :: cs2 =>
           if e = 'u' then
             match cs2 with
             | h1 :: h2 :: h3 :: h4 :: cs3 =>
               match hexVal h1, hexVal h2, hexVal h3, hexVal h4 with
               | some a, some b, some c2, some d =>
                 (parseStrBody n cs3).map
                   (fun r => (Char.ofNat (4096 * a + 256 * b + 16 * c2 + d) :: r.1, r.2))
               | _, _, _, _ => none
             | _ => none
           else
             match escMap e with
             | some ch => (parseStrBody n cs2).map (fun r => (ch :: r.1, r.2))
             | none => none
       else if c.toNat < 32 then none
       else (parseStrBody n cs).map (fun r => (c :: r.1, r.2))) := rfl

theorem parseStrBody_consume : ∀ (fuel : Nat) (cs s r : List Char),
    parseStrBody fuel cs = some (s, r) → ∃ pre, cs = pre ++ '"' :: r := by
  intro fuel
  induction fuel with
  | zero => intro cs s r h; rw [parseStrBody] at h; simp at h
  | succ n ih =>
    intro cs s r h
    rcases cs with _ | ⟨c, w⟩
    · rw [parseStrBody] at h; simp at h
    · rw [parseStrBody_cons_eq] at h
      by_cases h1 : c = '"'
      · rw [if_pos h1] at h
        simp only [Option.some.injEq, Prod.mk.injEq] at h
        obtain ⟨rfl, rfl⟩ := h
        subst h1
        exact ⟨[], rfl⟩
      · rw [if_neg h1] at h
        by_cases h2 : c = '\\'
        · rw [if_pos h2] at h
          split at h
          · simp at h
          rename_i e cs2
          by_cases h3 : e = 'u'
          · rw [if_pos h3] at h
            split at h
            · rename_i x1 x2 x3 x4 cs3
              split at h
              · simp only [Option.map_eq_some'] at h
                obtain ⟨⟨s1, r1⟩, hps, hf⟩ := h
                simp only [Prod.mk.injEq] at hf
                obtain ⟨rfl, rfl⟩ := hf
                obtain ⟨pre, rfl⟩ := ih cs3 s1 r1 hps
                exact ⟨c :: e :: x1 :: x2 :: x3 :: x4 :: pre, rfl⟩
              all_goals simp at h
            · simp at h
          · rw [if_neg h3] at h
            split at h
            · rename_i ch hm
              simp only [Option.map_eq_some'] at h
              obtain ⟨⟨s1, r1⟩, hps, hf⟩ := h
              simp only [Prod.mk.injEq] at hf
              obtain ⟨rfl, rfl⟩ := hf
              obtain ⟨pre, rfl⟩ := ih cs2 s1 r1 hps
              exact ⟨c :: e :: pre, rfl⟩
            · simp at h
        · rw [if_neg h2] at h
          by_cases h4 : c.toNat < 32
          · rw [if_pos h4] at h; simp at h
          · rw [if_neg h4] at h
            simp only [Option.map_eq_some'] at h
            obtain ⟨⟨s1, r1⟩, hps, hf⟩ := h
            simp only [Prod.mk.injEq] at hf
            obtain ⟨rfl, rfl⟩ := hf
            obtain ⟨pre, rfl⟩ := ih w s1 r1 hps
            exact ⟨c :: pre, rfl⟩

theorem parseValue_btick (fuel : Nat) (rest : List Char) :
    parseValue fuel (btick :: rest) = none := by
  rcases fuel with _ | n
  · rfl
  · rfl

theorem jsonParse_btick (rest : List Char) : jsonParse (btick :: rest) = none := by
  rw [jsonParse, parseValue_btick]


theorem parseValue_succ_eq (n : Nat) (cs : List Char) :
    parseValue (n + 1) cs =
      (match skipWs cs with
       | [] => none
       | c :: rest =>
         if c = '{' then parseObjStart n rest
         else if c = '[' then parseArrStart n rest
         else if c = '"' then
           match parseStrBody (rest.length + 1) rest with
           | some (s, r) => some (.str (String.mk s), r)
           | none => none
         else if c = 't' then expectLit "rue".data (.bool true) rest
         else if c = 'f' then expectLit "alse".data (.bool false) rest
         else if c = 'n' then expectLit "ull".data .null rest
         else
           match parseNumber (c :: rest) with
           | some (lex, r) => some (.num (String.mk lex), r)
           | none => none) := rfl

theorem parseArrStart_succ_eq (n : Nat) (cs : List Char) :
    parseArrStart (n + 1) cs =
      (match skipWs cs with
       | ']' :: r => some (.arr [], r)
       | _ =>
         match parseValue n cs with
         | some (v, r) => parseArrRest n [v] r
         | none => none) := rfl

theorem parseArrRest_succ_eq (n : Nat) (acc : List Json) (cs : List Char) :
    parseArrRest (n + 1) acc cs =
      (match skipWs cs with
       | ',' :: r =>
         match parseValue n r with
         | some (v, r2) => parseArrRest n (acc ++ [v]) r2
         | none => none
       | ']' :: r => some (.arr acc, r)
       | _ => none) := rfl

theorem parseObjStart_succ_eq (n : Nat) (cs : List Char) :
    parseObjStart (n + 1) cs =
      (match skipWs cs with
       | '}' :: r => some (.obj [], r)
       | _ =>
         match parseMember n cs with
         | some (k, v, r) => parseObjRest n [(k, v)] r
         | none => none) := rfl

theorem parseObjRest_succ_eq (n : Nat) (acc : List (String × Json)) (cs : List Char) :
    parseObjRest (n + 1) acc cs =
      (match skipWs cs with
       | ',' :: r =>
         match parseMember n r with
         | some (k, v, r2) => parseObjRest n (acc ++ [(k, v)]) r2
         | none => none
       | '}' :: r => some (.obj acc, r)
       | _ => none) := rfl

theorem parseMember_succ_eq (n : Nat) (cs : List Char) :
    parseMember (n + 1) cs =
      (match skipWs cs with
       | '"' :: r =>
         match parseStrBody (r.length + 1) r with
         | some (k, r2) =>
           match skipWs r2 with
           | ':' :: r3 =>
             match parseValue n r3 with
             | some (v, r4) => some (String.mk k, v, r4)
             | none => none
           | _ => none
         | none => none
       | _ => none) := rfl

theorem parse_consume (fuel : Nat) :
    (∀ cs v r, parseValue fuel cs = some (v, r) → ConsumedTo cs r) ∧
    (∀ cs v r, parseArrStart fuel cs = some (v, r) → ConsumedTo cs r) ∧
    (∀ acc cs v r, parseArrRest fuel acc cs = some (v, r) → ConsumedTo cs r) ∧
    (∀ cs v r, parseObjStart fuel cs = some (v, r) → ConsumedTo cs r) ∧
    (∀ acc cs v r, parseObjRest fuel acc cs = some (v, r) → ConsumedTo cs r) ∧
    (∀ cs k v r, parseMember fuel cs = some (k, v, r) → ConsumedTo cs r) := by
  induction fuel with
  | zero =>
    refine ⟨fun cs v r h => ?_, fun cs v r h => ?_, fun acc cs v r h => ?_,
      fun cs v r h => ?_, fun acc cs v r h => ?_, fun cs k v r h => ?_⟩
    · exact absurd h (by rw [show parseValue 0 cs = none from rfl]; simp)
    · exact absurd h (by rw [show parseArrStart 0 cs = none from rfl]; simp)
    · exact absurd h (by rw [show parseArrRest 0 acc cs = none from rfl]; simp)
    · exact absurd h (by rw [show parseObjStart 0 cs = none from rfl]; simp)
    · exact absurd h (by rw [show parseObjRest 0 acc cs = none from rfl]; simp)
    · exact absurd h (by rw [show parseMember 0 cs = none from rfl]; simp)
  | succ n ih =>
    obtain ⟨ihV, ihAS, ihAR, ihOS, ihOR, ihM⟩ := ih
    refine ⟨?_, ?_, ?_, ?_, ?_, ?_⟩
    · intro cs v r h
      rw [parseValue_succ_eq] at h
      split at h
      · simp at h
      rename_i c rest hs
      by_cases h1 : c = '{'
      · rw [if_pos h1] at h
        exact consumedTo_of_skipWs hs (by rw [h1]; decide) (ihOS rest v r h)
      rw [if_neg h1] at h
      by_cases h2 : c = '['
      · rw [if_pos h2] at h
        exact consumedTo_of_skipWs hs (by rw [h2]; decide) (ihAS rest v r h)
      rw [if_neg h2] at h
      by_cases h3 : c = '"'
      · rw [if_pos h3] at h
        split at h
        · rename_i s rp hsb
          simp only [Option.some.injEq, Prod.mk.injEq] at h
          obtain ⟨rfl, hr⟩ := h
          subst hr
          obtain ⟨pre, hpre⟩ := parseStrBody_consume _ rest s _ hsb
          exact consumedTo_of_skipWs hs (by rw [h3]; decide) ⟨pre, '"', hpre, by decide⟩
        · simp at h
      rw [if_neg h3] at h
      by_cases h4 : c = 't'
      · rw [if_pos h4] at h
        have he := expectLit_consume _ _ v rest r h
        refine consumedTo_of_skipWs hs (by rw [h4]; decide) ?_
        rw [he]
        exact ⟨['r', 'u'], 'e', rfl, by decide⟩
      rw [if_neg h4] at h
      by_cases h5 : c = 'f'
      · rw [if_pos h5] at h
        have he := expectLit_consume _ _ v rest r h
        refine consumedTo_of_skipWs hs (by rw [h5]; decide) ?_
        rw [he]
        exact ⟨['a', 'l', 's'], 'e', rfl, by decide⟩
      rw [if_neg h5] at h
      by_cases h6 : c = 'n'
      · rw [if_pos h6] at h
        have he := expectLit_consume _ _ v rest r h
        refine consumedTo_of_skipWs hs (by rw [h6]; decide) ?_
        rw [he]
        exact ⟨['u', 'l'], 'l', rfl, by decide⟩
      rw [if_neg h6] at h
      split at h
      · rename_i lex rp hpn
        simp only [Option.some.injEq, Prod.mk.injEq] at h
        obtain ⟨rfl, hr⟩ := h
        subst hr
        exact consumedTo_of_skipWs_all hs (parseNumber_consume _ _ _ hpn)
      · simp at h
    · intro cs v r h
      rw [parseArrStart_succ_eq] at h
      split at h
      · rename_i rp hs
        simp only [Option.some.injEq, Prod.mk.injEq] at h
        obtain ⟨rfl, hr⟩ := h
        subst hr
        exact consumedTo_skipWs_here hs (by decide)
      · split at h
        · rename_i v1 r1 hv
          exact consumedTo_trans (ihV cs v1 r1 hv) (ihAR [v1] r1 v r h)
        · simp at h
    · intro acc cs v r h
      rw [parseArrRest_succ_eq] at h
      split at h
      · rename_i rp hs
        split at h
        · rename_i v1 r2 hv
          exact consumedTo_of_skipWs hs (by decide)
            (consumedTo_trans (ihV rp v1 r2 hv) (ihAR (acc ++ [v1]) r2 v r h))
        · simp at h
      · rename_i rp hs
        simp only [Option.some.injEq, Prod.mk.injEq] at h
        obtain ⟨rfl, hr⟩ := h
        subst hr
        exact consumedTo_skipWs_here hs (by decide)
      · simp at h
    · intro cs v r h
      rw [parseObjStart_succ_eq] at h
      split at h
      · rename_i rp hs
        simp only [Option.some.injEq, Prod.mk.injEq] at h
        obtain ⟨rfl, hr⟩ := h
        subst hr
        exact consumedTo_skipWs_here hs (by decide)
      · split at h
        · rename_i k1 v1 r1 hm
          exact consumedTo_trans (ihM cs k1 v1 r1 hm) (ihOR [(k1, v1)] r1 v r h)
        · simp at h
    · intro acc cs v r h
      rw [parseObjRest_succ_eq] at h
      split at h
      · rename_i rp hs
        split at h
        · rename_i k1 v1 r2 hm
          exact consumedTo_of_skipWs hs (by decide)
            (consumedTo_trans (ihM rp k1 v1 r2 hm) (ihOR (acc ++ [(k1, v1)]) r2 v r h))
        · simp at h
      · rename_i rp hs
        simp only [Option.some.injEq, Prod.mk.injEq] at h
        obtain ⟨rfl, hr⟩ := h
        subst hr
        exact consumedTo_skipWs_here hs (by decide)
      · simp at h
    · intro cs k v r h
      rw [parseMember_succ_eq] at h
      split at h
      · rename_i rp hs
        split at h
        · rename_i k1 r2 hsb
          split at h
          · rename_i r3 hs2
            split at h
            · rename_i v1 r4 hv
              simp only [Option.some.injEq, Prod.mk.injEq] at h
              obtain ⟨rfl, rfl, hr⟩ := h
              subst hr
              have c1 : ConsumedTo r3 r4 := ihV r3 v1 r4 hv
              have c2 : ConsumedTo r2 r4 := consumedTo_of_skipWs hs2 (by decide) c1
              obtain ⟨pre, hpre⟩ := parseStrBody_consume _ rp k1 r2 hsb
              have c3 : ConsumedTo rp r4 := by
                rw [hpre]
                exact consumedTo_trans ⟨pre, '"', rfl, by decide⟩ c2
              exact consumedTo_of_skipWs hs (by decide) c3
            · simp at h
          · simp at h
        · simp at h
      · simp at h


theorem jsonParse_consumed (cs : List Char) (v : Json) (h : jsonParse cs = some v) :
    ∃ rest, ConsumedTo cs rest ∧ skipWs rest = [] := by
  rw [jsonParse] at h
  split at h
  · rename_i val rest hv
    by_cases hw : skipWs rest = []
    · exact ⟨rest, (parse_consume _).1 cs val rest hv, hw⟩
    · rw [if_neg hw] at h
      simp at h
  · simp at h

theorem jsonParse_last_not_btick (cs : List Char) (v : Json) (h : jsonParse cs = some v)
    (hws : ∀ c0, cs.getLast? = some c0 → jsWsChar c0 = false) :
    ∃ pre c, cs = pre ++ [c] ∧ ¬ c = btick := by
  obtain ⟨rest, hcons, hskip⟩ := jsonParse_consumed cs v h
  obtain ⟨pre, c, rfl, hc⟩ := hcons
  rcases hrest : rest.reverse with _ | ⟨d, w⟩
  · have hnil : rest = [] := by simpa using congrArg List.reverse hrest
    subst hnil
    exact ⟨pre, c, rfl, hc⟩
  · exfalso
    have hall : ∀ x ∈ rest, jsonWsChar x = true := by
      rw [skipWs] at hskip
      intro x hx
      exact List.dropWhile_eq_nil_iff.mp hskip x hx
    have hdmem : d ∈ rest := by
      have hm : d ∈ rest.reverse := by
        rw [hrest]
        exact List.mem_cons_self d w
      simpa using hm
    have hdws : jsWsChar d = true := jsonWs_imp_jsWs d (hall d hdmem)
    have hlast : (pre ++ c :: rest).getLast? = some d := by
      rw [← head?_reverse_eq_getLast?, List.reverse_append, List.reverse_cons, hrest]
      simp
    have hfalse := hws d hlast
    rw [hfalse] at hdws
    exact Bool.noConfusion hdws

theorem leading_fence_impossible (cs : List Char) (v : Json)
    (h : jsonParse (trimL cs) = some v)
    (hl : leadsWith fenceMark (trimL cs) = true) : False := by
  obtain ⟨tail, htl⟩ := (leadsWith_iff _ _).mp hl
  rw [htl] at h
  rw [show (fenceMark ++ tail : List Char) = btick :: ('\x60' :: '\x60' :: tail) from rfl] at h
  rw [jsonParse_btick] at h
  exact Option.noConfusion h

theorem trailing_fence_impossible (cs : List Char) (v : Json)
    (h : jsonParse (trimL cs) = some v)
    (ht : trailsWith fenceMark (trimL cs) = true) : False := by
  obtain ⟨tail, htl⟩ := (leadsWith_iff _ _).mp ht
  have hlast : (trimL cs).getLast? = some btick := by
    rw [← head?_reverse_eq_getLast?, htl]
    rfl
  obtain ⟨pre, c, hdec, hcb⟩ := jsonParse_last_not_btick (trimL cs) v h
    (fun c0 hc0 => trimL_getLast_false cs c0 hc0)
  have hlc : (trimL cs).getLast? = some c := by
    rw [hdec]
    exact List.getLast?_concat _
  rw [hlast] at hlc
  exact hcb (Option.some.inj hlc).symm


/-- C3: fence-wrapping equivalence of the defensive parser. -/
theorem c3_parser_fence_equiv (t : String)
    (h : (jsonParse (trimL t.data)).isSome = true) :
    parseJSON ("```json\n" ++ t ++ "\n```") = parseJSON t ∧
    (parseJSON t).isSome = true := by
  obtain ⟨v, hv⟩ := Option.isSome_iff_exists.mp h
  have hplain : fenceStrip t.data = trimL t.data := by
    refine fenceStrip_plain t.data ?_ ?_
    · cases hl : leadsWith fenceMark (trimL t.data)
      · rfl
      · exact (leading_fence_impossible t.data v hv hl).elim
    · cases ht : trailsWith fenceMark (trimL t.data)
      · rfl
      · exact (trailing_fence_impossible t.data v hv ht).elim
  have hwrap : fenceStrip ("```json\n" ++ t ++ "\n```").data = trimL t.data := by
    rw [show ("```json\n" ++ t ++ "\n```").data =
      "```json\n".data ++ t.data ++ "\n```".data by simp [String.data_append]]
    exact fenceStrip_wrap t.data
  refine ⟨?_, ?_⟩
  · rw [parseJSON, parseJSON, hplain, hwrap]
  · rw [parseJSON, hplain, hv]
    rfl

theorem c3_parser_fence_equiv_witness :
    (jsonParse (trimL "[1, 2]".data)).isSome = true ∧
    (parseJSON ("```json\n" ++ "[1, 2]" ++ "\n```") = parseJSON "[1, 2]" ∧
     (parseJSON "[1, 2]").isSome = true) :=
  ⟨by decide, c3_parser_fence_equiv "[1, 2]" (by decide)⟩


/-- C9: with `GMAIL_USER` or `GMAIL_APP_PASSWORD` unset (absent or
empty), `sendEmail` returns without delivering and leaves the
notification log — the only store state it ever writes — unchanged.
(The model is total, so the call cannot throw.) -/
theorem c9_unconfigured_noop (cfg : EmailCfg) (log : List LogEntry) (subject html : String)
    (nowMs : Int) (h : (envSet cfg.user && envSet cfg.pass) = false) :
    sendEmail cfg log subject html nowMs = ⟨[], log⟩ := by
  simp [sendEmail, h]

/-- Witness for C9 at a concrete unconfigured environment. -/
theorem c9_unconfigured_noop_witness :
    (envSet (EmailCfg.mk none (some "p")).user && envSet (EmailCfg.mk none (some "p")).pass) = false ∧
    sendEmail ⟨none, some "p"⟩ [] "s" "h" 5 = ⟨[], []⟩ :=
  ⟨by decide, c9_unconfigured_noop ⟨none, some "p"⟩ [] "s" "h" 5 (by decide)⟩

/-- C8: a morning-digest firing over a store with zero open tasks and
zero unachieved goals performs no oracle call and no delivery and leaves
the notification log unchanged. -/
theorem c8_empty_digest_noop (cfg : EmailCfg) (tasks : List Task) (goals : List Goal)
    (log : List LogEntry) (memory dateLong dateShort reply : String) (sendMs : Int)
    (ht : (tasks.filter (fun t => !t.done)).length = 0)
    (hg : (goals.filter (fun g => !g.achieved)).length = 0) :
    morningFiring cfg tasks goals log memory dateLong dateShort reply sendMs = ⟨[], log⟩ := by
  simp [morningFiring, ht, hg]

/-- Witness for C8: a store holding one completed task and one achieved
goal fires the digest as a no-op. -/
theorem c8_empty_digest_noop_witness :
    (([(⟨"t", "high", "c", none, none, true⟩ : Task)].filter (fun t => !t.done)).length = 0) ∧
    (([(⟨"g", true, none, none⟩ : Goal)].filter (fun g => !g.achieved)).length = 0) ∧
    morningFiring cfgOn [⟨"t", "high", "c", none, none, true⟩] [⟨"g", true, none, none⟩]
      [] "" "dl" "ds" "r" 0 = ⟨[], []⟩ :=
  ⟨by decide, by decide,
    c8_empty_digest_noop cfgOn [⟨"t", "high", "c", none, none, true⟩] [⟨"g", true, none, none⟩]
      [] "" "dl" "ds" "r" 0 (by decide) (by decide)⟩

/-- C5: in the due/overdue check's rendering, a task whose due date is
`k` days from today (on the model's local-midnight day scale) is
labelled `OVERDUE by |k|d` / `DUE TODAY` / `due in kd` by the sign of
the integer day difference; in particular `k = -1, 0, 1` give
`OVERDUE by 1d`, `DUE TODAY`, `due in 1d`. -/
theorem c5_urgency_labels (t : Task) (todayMs k : Int) (ds : String)
    (hds : t.dueDate = some ds) (hv : dueDateValueMs ds = some (todayMs + k * 86400000)) :
    dueTaskLine todayMs t =
      "- [" ++ jsToUpper t.priority ++ "] " ++ t.title ++ " — " ++ urgencyLabel k ∧
    urgencyLabel k =
      (if k < 0 then "OVERDUE by " ++ toString k.natAbs ++ "d"
       else if k = 0 then "DUE TODAY" else "due in " ++ toString k ++ "d") ∧
    (k = -1 → urgencyLabel k = "OVERDUE by 1d") ∧
    (k = 0 → urgencyLabel k = "DUE TODAY") ∧
    (k = 1 → urgencyLabel k = "due in 1d") := by
  have hdiff : jsRoundDayDiff (k * 86400000) = k := by
    rw [jsRoundDayDiff, Int.fdiv_eq_ediv _ (by norm_num)]
    omega
  refine ⟨?_, rfl, ?_, ?_, ?_⟩
  · simp [dueTaskLine, hds, hv, hdiff]
  · rintro rfl; decide
  · rintro rfl; decide
  · rintro rfl; decide

/-- Witness for C5 at a task due one day after today. -/
theorem c5_urgency_labels_witness :
    c5TaskEx.dueDate = some "1970-01-02" ∧
    dueDateValueMs "1970-01-02" = some (0 + 1 * 86400000) ∧
    dueTaskLine 0 c5TaskEx = "- [HIGH] Pay rent — due in 1d" := by
  refine ⟨by decide, by decide, ?_⟩
  have h := c5_urgency_labels c5TaskEx 0 1 "1970-01-02" (by decide) (by decide)
  rw [h.1]
  decide

/-- C4 (amended): the manual morning trigger responds to the caller
first — before any oracle call — and then runs its own variant of the
briefing body, which has no skip-when-no-data condition: whatever the
store holds, the response action is first and an oracle call follows. -/
theorem c4_trigger_responds_then_variant (cfg : EmailCfg) (tasks : List Task)
    (goals : List Goal) (log : List LogEntry) (memory dateStr timeStr reply : String)
    (sendMs : Int) :
    ∃ rest,
      (triggerRoute cfg "morning" tasks goals log memory dateStr timeStr reply sendMs).actions =
        Action.respond true "Morning briefing triggered — check your email in ~30s" :: rest ∧
      ∃ sys usr, rest.head? = some (Action.oracle sys usr 512) := by
  refine ⟨(triggerMorningBody cfg tasks goals log memory dateStr timeStr reply sendMs).actions,
    ?_, ?_⟩
  · simp [triggerRoute]
  · exact ⟨_, _, rfl⟩

/-- Counterexample to C4 as stated: on an empty store the scheduled
morning briefing skips (no oracle call), while the manual trigger still
calls the oracle — the trigger does not execute the same job body with
the same skip-when-no-data condition. -/
theorem c4_counterexample :
    (morningFiring cfgOn [] [] [] "" "dl" "ds" "r" 0).actions = [] ∧
    (triggerRoute cfgOn "morning" [] [] [] "" "dl" "ts" "r" 0).actions.any isOracleAct = true := by
  constructor
  · decide
  · decide

/-- C2 (amended): a delivery from the due/overdue check or the focus
reminder happens only if the parsed decision's flag field is truthy
(JavaScript truthiness, `if (decision.shouldNotify)` — not a strict
`=== true` check) and the kind's cool-down gate found no recent entry. -/
theorem c2_delivery_requires_truthy_and_gate (cfg : EmailCfg) (tasks : List Task)
    (log : List LogEntry) (todayMs nowMs sendMs : Int) (dow hour : Nat)
    (memory timeStr raw : String) :
    (((dueCheckFiring cfg tasks log todayMs nowMs sendMs memory raw).actions.any isEmailAct = true) →
      ∃ dec, parseJSON raw = some dec ∧ jsTruthyO (jsField dec "shouldNotify") = true ∧
        recentlySent log "Due" (4 * 60 * 60 * 1000) nowMs = false) ∧
    (((focusFiring cfg tasks log dow hour nowMs sendMs memory timeStr raw).actions.any isEmailAct = true) →
      ∃ dec, parseJSON raw = some dec ∧ jsTruthyO (jsField dec "shouldSend") = true ∧
        recentlySent log "Focus" (2 * 60 * 60 * 1000) nowMs = false) := by
  constructor
  · intro hdel
    rw [dueCheckFiring] at hdel
    by_cases h1 : (List.filter (dueTaskUrgent todayMs) tasks).length = 0
    · rw [if_pos h1] at hdel
      simp [isEmailAct] at hdel
    · rw [if_neg h1] at hdel
      by_cases h2 : recentlySent log "Due" (4 * 60 * 60 * 1000) nowMs = true
      · rw [if_pos h2] at hdel
        simp [isEmailAct] at hdel
      · have h2f : recentlySent log "Due" (4 * 60 * 60 * 1000) nowMs = false := by
          simpa using h2
        rw [if_neg h2] at hdel
        cases hp : parseJSON raw with
        | none =>
          rw [hp] at hdel
          simp [isEmailAct] at hdel
        | some dec =>
          rw [hp] at hdel
          by_cases h3 : jsTruthyO (jsField dec "shouldNotify") = true
          · exact ⟨dec, rfl, h3, h2f⟩
          · simp [h3, isEmailAct] at hdel
  · intro hdel
    rw [focusFiring] at hdel
    by_cases h1 : (List.filter (fun t => !t.done && t.priority ≠ "low") tasks).length = 0
    · rw [if_pos h1] at hdel
      simp [isEmailAct] at hdel
    · rw [if_neg h1] at hdel
      by_cases hw : dow = 0 ∨ dow = 6
      · rw [if_pos hw] at hdel
        simp [isEmailAct] at hdel
      · rw [if_neg hw] at hdel
        by_cases h2 : recentlySent log "Focus" (2 * 60 * 60 * 1000) nowMs = true
        · rw [if_pos h2] at hdel
          simp [isEmailAct] at hdel
        · have h2f : recentlySent log "Focus" (2 * 60 * 60 * 1000) nowMs = false := by
            simpa using h2
          rw [if_neg h2] at hdel
          cases hp : parseJSON raw with
          | none =>
            rw [hp] at hdel
            simp [isEmailAct] at hdel
          | some dec =>
            rw [hp] at hdel
            by_cases h3 : jsTruthyO (jsField dec "shouldSend") = true
            · exact ⟨dec, rfl, h3, h2f⟩
            · simp [h3, isEmailAct] at hdel

/-- Witness for C2 (amended), both kinds, at concrete delivering runs. -/
theorem c2_delivery_requires_truthy_and_gate_witness :
    ((dueCheckFiring cfgOn [dueTaskEx] [] 0 0 0 "" dueTrueRaw).actions.any isEmailAct = true) ∧
    (∃ dec, parseJSON dueTrueRaw = some dec ∧ jsTruthyO (jsField dec "shouldNotify") = true ∧
      recentlySent [] "Due" (4 * 60 * 60 * 1000) 0 = false) ∧
    ((focusFiring cfgOn [focusTaskEx] [] 2 9 0 0 "" "9:00 AM" focusTrueRaw).actions.any isEmailAct = true) ∧
    (∃ dec, parseJSON focusTrueRaw = some dec ∧ jsTruthyO (jsField dec "shouldSend") = true ∧
      recentlySent [] "Focus" (2 * 60 * 60 * 1000) 0 = false) :=
  ⟨by decide,
   (c2_delivery_requires_truthy_and_gate cfgOn [dueTaskEx] [] 0 0 0 2 9 "" "9:00 AM" dueTrueRaw).1
     (by decide),
   by decide,
   (c2_delivery_requires_truthy_and_gate cfgOn [focusTaskEx] [] 0 0 0 2 9 "" "9:00 AM" focusTrueRaw).2
     (by decide)⟩

/-- Counterexample to C2 as stated: an oracle decision whose
`shouldNotify` is the truthy string `"no"` — not the boolean `true` —
still triggers a delivery from the due/overdue check. -/
theorem c2_counterexample :
    ((parseJSON dueStrRaw).bind (fun dec => jsField dec "shouldNotify") = some (Json.str "no")) ∧
    (Json.str "no" ≠ Json.bool true) ∧
    ((dueCheckFiring cfgOn [dueTaskEx] [] 0 0 0 "" dueStrRaw).actions.any isEmailAct = true) := by
  refine ⟨by decide, by decide, by decide⟩

theorem recentlySent_false_sep (log : List LogEntry) (tag : String) (cool nowMs : Int)
    (h : recentlySent log tag cool nowMs = false) :
    ∀ a ∈ log, strIncludes a.type tag = true → a.sentAt + cool ≤ nowMs := by
  intro a ha hinc
  rw [recentlySent, List.any_eq_false] at h
  have hp := h a ha
  simp [hinc] at hp
  omega

theorem sendEmail_log_cases (cfg : EmailCfg) (log : List LogEntry) (subject html : String)
    (nowMs : Int) :
    (sendEmail cfg log subject html nowMs).log = log ∨
    (sendEmail cfg log subject html nowMs).log =
      sliceLast (log ++ [⟨subject, nowMs, html⟩]) 50 := by
  unfold sendEmail
  by_cases h : (envSet cfg.user && envSet cfg.pass) = true <;> simp [h]

theorem runEvent_cases (cfg : EmailCfg) (log : List LogEntry) (e : JobEvent) :
    runEvent cfg log e = log ∨
    (∃ html, runEvent cfg log e = sliceLast (log ++ [⟨eventSubject e, eventSend e, html⟩]) 50 ∧
      (∀ tag cool, gatedTag e = some tag → gateCool e = some cool →
        recentlySent log tag cool (eventNow e) = false)) := by
  cases e with
  | dueFire tasks todayMs nowMs sendMs memory raw =>
    simp only [runEvent, dueCheckFiring]
    by_cases h1 : (List.filter (dueTaskUrgent todayMs) tasks).length = 0
    · rw [if_pos h1]; left; rfl
    · rw [if_neg h1]
      by_cases h2 : recentlySent log "Due" (4 * 60 * 60 * 1000) nowMs = true
      · rw [if_pos h2]; left; rfl
      · have h2f : recentlySent log "Due" (4 * 60 * 60 * 1000) nowMs = false := by
          simpa using h2
        rw [if_neg h2]
        split
        · left; rfl
        · rename_i dec hp
          by_cases h3 : jsTruthyO (jsField dec "shouldNotify") = true
          · rw [if_pos h3]
            rcases sendEmail_log_cases cfg log (dueFireSubject raw)
              (emailTemplate "Tasks Due Soon" (jsToStringU (jsField dec "message")) "#c0392b")
              sendMs with hse | hse
            · left; exact hse
            · right
              refine ⟨emailTemplate "Tasks Due Soon" (jsToStringU (jsField dec "message")) "#c0392b",
                hse, ?_⟩
              intro tag cool htag hcool
              simp only [gatedTag, Option.some.injEq] at htag
              simp only [gateCool, Option.some.injEq] at hcool
              rw [← htag, ← hcool]
              exact h2f
          · rw [if_neg h3]; left; rfl
  | focusFire tasks dow hour nowMs sendMs memory timeStr raw =>
    simp only [runEvent, focusFiring]
    by_cases h1 : (List.filter (fun t => !t.done && t.priority ≠ "low") tasks).length = 0
    · rw [if_pos h1]; left; rfl
    · rw [if_neg h1]
      by_cases hw : dow = 0 ∨ dow = 6
      · rw [if_pos hw]; left; rfl
      · rw [if_neg hw]
        by_cases h2 : recentlySent log "Focus" (2 * 60 * 60 * 1000) nowMs = true
        · rw [if_pos h2]; left; rfl
        · have h2f : recentlySent log "Focus" (2 * 60 * 60 * 1000) nowMs = false := by
            simpa using h2
          rw [if_neg h2]
          split
          · left; rfl
          · rename_i dec hp
            by_cases h3 : jsTruthyO (jsField dec "shouldSend") = true
            · rw [if_pos h3]
              rcases sendEmail_log_cases cfg log ("🎯 Focus Check-in — " ++ timeStr)
                (emailTemplate "Stay Focused" (jsToStringU (jsField dec "message")) "#4a7c28")
                sendMs with hse | hse
              · left; exact hse
              · right
                refine ⟨emailTemplate "Stay Focused" (jsToStringU (jsField dec "message")) "#4a7c28",
                  hse, ?_⟩
                intro tag cool htag hcool
                simp only [gatedTag, Option.some.injEq] at htag
                simp only [gateCool, Option.some.injEq] at hcool
                rw [← htag, ← hcool]
                exact h2f
            · rw [if_neg h3]; left; rfl
  | morningFire tasks goals memory dateLong dateShort reply sendMs =>
    simp only [runEvent, morningFiring]
    by_cases h1 : (List.filter (fun t => !t.done) tasks).length = 0 ∧
        (List.filter (fun g => !g.achieved) goals).length = 0
    · rw [if_pos h1]; left; rfl
    · rw [if_neg h1]
      rcases sendEmail_log_cases cfg log ("☀️ Morning Briefing — " ++ dateShort)
        (emailTemplate "Your Morning Briefing" reply "#2d5016") sendMs with hse | hse
      · left; exact hse
      · right
        exact ⟨emailTemplate "Your Morning Briefing" reply "#2d5016", hse, by
          intro tag cool htag; simp [gatedTag] at htag⟩
  | weeklyFire tasks completionLog goals memory dateLong dateShort cutoffMs reply sendMs =>
    simp only [runEvent, weeklyFiring]
    rcases sendEmail_log_cases cfg log ("💡 Weekly Task Suggestions — " ++ dateShort)
      (emailTemplate "Tasks You Might Be Missing" reply "#5a3e8c") sendMs with hse | hse
    · left; exact hse
    · right
      exact ⟨emailTemplate "Tasks You Might Be Missing" reply "#5a3e8c", hse, by
        intro tag cool htag; simp [gatedTag] at htag⟩
  | triggerFire tasks goals memory dateStr timeStr reply sendMs =>
    simp only [runEvent, triggerRoute, triggerMorningBody]
    rw [if_neg (by simp)]
    rcases sendEmail_log_cases cfg log ("☀️ Test Briefing — " ++ timeStr)
      (emailTemplate "Test Morning Briefing" reply "#2d5016") sendMs with hse | hse
    · left; exact hse
    · right
      exact ⟨emailTemplate "Test Morning Briefing" reply "#2d5016", hse, by
        intro tag cool htag; simp [gatedTag] at htag⟩

theorem cooldownSeparated_runEvent (tag : String) (cool : Int) (cfg : EmailCfg)
    (e : JobEvent) (log : List LogEntry)
    (hsep : cooldownSeparated tag cool log)
    (hns : eventNow e ≤ eventSend e)
    (hgate : gatedTag e = some tag ∨ strIncludes (eventSubject e) tag = false)
    (hgc : gatedTag e = some tag → gateCool e = some cool) :
    cooldownSeparated tag cool (runEvent cfg log e) := by
  rcases runEvent_cases cfg log e with h | ⟨html, h, hg⟩
  · rw [h]; exact hsep
  · rw [h]
    apply List.Pairwise.sublist (List.drop_sublist _ _)
    rw [List.pairwise_append]
    refine ⟨hsep, List.pairwise_singleton _ _, ?_⟩
    intro a ha b hb hA hB
    have hbe : b = ⟨eventSubject e, eventSend e, html⟩ := by
      simpa using hb
    subst hbe
    rcases hgate with hg1 | hg2
    · have hfalse := hg tag cool hg1 (hgc hg1)
      have hle := recentlySent_false_sep log tag cool (eventNow e) hfalse a ha hA
      simp only []
      omega
    · rw [show (⟨eventSubject e, eventSend e, html⟩ : LogEntry).type = eventSubject e from rfl] at hB
      rw [hg2] at hB
      cases hB

theorem cooldown_fold (tag : String) (cool : Int) (cfg : EmailCfg)
    (hgc : ∀ e : JobEvent, gatedTag e = some tag → gateCool e = some cool) :
    ∀ events : List JobEvent, (∀ e ∈ events, eventNow e ≤ eventSend e) →
      (∀ e ∈ events, gatedTag e = some tag ∨ strIncludes (eventSubject e) tag = false) →
      ∀ log0, cooldownSeparated tag cool log0 →
        cooldownSeparated tag cool (events.foldl (runEvent cfg) log0) := by
  intro events
  induction events with
  | nil => intro _ _ log0 h0; exact h0
  | cons e t ih =>
    intro hseq htag log0 h0
    simp only [List.foldl_cons]
    exact ih (fun x hx => hseq x (List.mem_cons_of_mem e hx))
      (fun x hx => htag x (List.mem_cons_of_mem e hx)) _
      (cooldownSeparated_runEvent tag cool cfg e log0 h0
        (hseq e (List.mem_cons_self e t)) (htag e (List.mem_cons_self e t)) (hgc e))

theorem insertIfAbsent_of_isSome (s : Store) (a v k : String) (h : (s k).isSome) :
    insertIfAbsent s a v k = s k := by
  by_cases hk : k = a
  · subst hk
    obtain ⟨x, hx⟩ := Option.isSome_iff_exists.mp h
    simp [insertIfAbsent, hx]
  · simp [insertIfAbsent, hk]

theorem initFold_preserve (l : List (String × String)) (s : Store) (k : String)
    (h : (s k).isSome) :
    (l.foldl (fun acc kv => insertIfAbsent acc kv.1 kv.2) s) k = s k := by
  induction l generalizing s with
  | nil => rfl
  | cons a t ih =>
    have hstep := insertIfAbsent_of_isSome s a.1 a.2 k h
    have h2 : ((insertIfAbsent s a.1 a.2) k).isSome := by rw [hstep]; exact h
    simp only [List.foldl_cons]
    rw [ih _ h2, hstep]

theorem initFold_mem (l : List (String × String)) (s : Store) (k v : String)
    (hmem : (k, v) ∈ l) (hnd : (l.map Prod.fst).Nodup) (habs : s k = none) :
    (l.foldl (fun acc kv => insertIfAbsent acc kv.1 kv.2) s) k = some v := by
  induction l generalizing s with
  | nil => cases hmem
  | cons a t ih =>
    simp only [List.foldl_cons]
    simp only [List.map_cons, List.nodup_cons] at hnd
    rcases List.mem_cons.mp hmem with heq | hmem2
    · have hset : (insertIfAbsent s a.1 a.2) k = some v := by
        rw [← heq]
        simp [insertIfAbsent, habs]
      rw [initFold_preserve t _ k (by rw [hset]; rfl)]
      exact hset
    · have hka : ¬ (k = a.1) := by
        intro hc
        apply hnd.1
        rw [← hc]
        exact List.mem_map_of_mem Prod.fst hmem2
      have habs2 : (insertIfAbsent s a.1 a.2) k = none := by
        simp [insertIfAbsent, hka, habs]
      exact ih _ hmem2 hnd.2 habs2

theorem applySets_other (ops : List (String × Json)) (s : Store) (k : String)
    (h : ∀ op ∈ ops, op.1 ≠ k) : applySets ops s k = s k := by
  induction ops generalizing s with
  | nil => rfl
  | cons a t ih =>
    simp only [applySets, List.foldl_cons] at *
    rw [ih _ (fun op hop => h op (List.mem_cons_of_mem a hop))]
    have hne : ¬ (k = a.1) := fun hc => (h a (List.mem_cons_self a t)) hc.symm
    simp [dbSet, hne]

theorem dbGet_stored (s : Store) (k txt : String) (h : s k = some txt) :
    dbGet s k = (match jsonParse txt.data with
      | some j => GetResult.value j
      | none => GetResult.error) := by
  unfold dbGet
  rw [h]

/-- C6: after initialisation, every documented logical key (`tasks`,
`goals`, `memory`, `notification_log`, `completion_log`, `projects`,
`notes`) on which no set has been performed reads as its documented
default empty value (`[]`, or `""` for `memory`) — a `value`, not
`null` and not an `error` — and initialisation never overwrites a key
that already holds a value (so re-running it is harmless). -/
theorem c6_defaults_and_idempotent :
    (∀ kv ∈ storeDefaults, ∀ s : Store, s kv.1 = none →
      ∀ ops : List (String × Json), (∀ op ∈ ops, op.1 ≠ kv.1) →
        dbGet (applySets ops (initDb s)) kv.1 =
          GetResult.value (if kv.1 = "memory" then Json.str "" else Json.arr [])) ∧
    (∀ (s : Store) (k : String), (s k).isSome → initDb s k = s k) := by
  constructor
  · intro kv hkv s hs ops hops
    have hmem : (kv.1, kv.2) ∈ storeDefaults := by rw [Prod.mk.eta]; exact hkv
    have hval : initDb s kv.1 = some kv.2 :=
      initFold_mem storeDefaults s kv.1 kv.2 hmem (by decide) hs
    have happ : applySets ops (initDb s) kv.1 = some kv.2 := by
      rw [applySets_other ops _ kv.1 hops, hval]
    rw [dbGet_stored _ _ _ happ]
    fin_cases hkv <;> decide
  · intro s k h
    exact initFold_preserve storeDefaults s k h

theorem routineAdd_effect (store : Store) (sec qq : Option String)
    (reply idLex createdAt extra : String) (nowMs : Int)
    (ts : List Json) (parsed : Json)
    (hx : ¬ (extra = ""))
    (ht : dbGet store "tasks" = GetResult.value (Json.arr ts))
    (hg : ¬ (dbGet store "goals" = GetResult.error))
    (hp : parseJSON reply = some parsed) :
    (handleRoutineGet store ⟨sec, some extra, qq⟩ "add" reply idLex createdAt nowMs).2 "tasks" =
      some (stringifyStr (Json.arr (ts ++ [mkRoutineTask idLex parsed createdAt]))) ∧
    (∀ k2, ¬ (k2 = "tasks") →
      (handleRoutineGet store ⟨sec, some extra, qq⟩ "add" reply idLex createdAt nowMs).2 k2 = store k2) := by
  have hextra : routineExtra ⟨sec, some extra, qq⟩ = extra := by
    simp [routineExtra, jsOrOS, jsOrS, hx]
  have hres : (handleRoutineGet store ⟨sec, some extra, qq⟩ "add" reply idLex createdAt nowMs).2 =
      dbSet store "tasks" (Json.arr (ts ++ [mkRoutineTask idLex parsed createdAt])) := by
    cases hgv : dbGet store "goals" with
    | error => exact absurd hgv hg
    | null =>
      simp [handleRoutineGet, buildRoutineResponse, hextra, dbGetOrEmptyArr, ht, hgv, hp,
        jsTruthy, asArr, hx]
    | value v =>
      simp [handleRoutineGet, buildRoutineResponse, hextra, dbGetOrEmptyArr, ht, hgv, hp,
        jsTruthy, asArr, hx]
  constructor
  · rw [hres]
    simp [dbSet]
  · intro k2 hk2
    rw [hres]
    simp [dbSet, hk2]

theorem mkRoutineTask_done_dueDate (idLex : String) (parsed : Json) (createdAt : String) :
    jsField (mkRoutineTask idLex parsed createdAt) "done" = some (Json.bool false) ∧
    jsField (mkRoutineTask idLex parsed createdAt) "dueDate" = some Json.null := by
  constructor <;>
  · cases h1 : jsField parsed "title" <;>
    cases h2 : jsField parsed "priority" <;>
    cases h3 : jsField parsed "category" <;>
    cases h4 : jsField parsed "reason" <;>
    simp [mkRoutineTask, optField, h1, h2, h3, h4, jsField]


theorem not_cooldownSeparated_pair (tag : String) (cool : Int) (log : List LogEntry)
    (t1 t2 : String) (m1 m2 : Int)
    (hmap : log.map (fun n => (n.type, n.sentAt)) = [(t1, m1), (t2, m2)])
    (h1 : strIncludes t1 tag = true) (h2 : strIncludes t2 tag = true)
    (hlt : m2 < m1 + cool) :
    ¬ cooldownSeparated tag cool log := by
  intro h
  rcases log with _ | ⟨a, _ | ⟨b, _ | _⟩⟩ <;> simp_all [cooldownSeparated]
  omega

/-- C1 (amended): for each notification kind with a cool-down (due
alerts, 4 h on tag `Due`; focus nudges, 2 h on tag `Focus`), under any
sequence of job firings — each firing reading the log left by the
previous one, with its gate check no later than its send — no two log
entries carrying the kind's tag are closer together than the cool-down,
PROVIDED every firing not gated on that tag logs a subject that does not
contain the tag (the due alert's subject is oracle-chosen free text, so
this proviso is needed; see the counterexample). -/
theorem c1_cooldown_separation (tag : String) (cool : Int)
    (hkind : (tag = "Due" ∧ cool = 4 * 60 * 60 * 1000) ∨
      (tag = "Focus" ∧ cool = 2 * 60 * 60 * 1000))
    (cfg : EmailCfg) (events : List JobEvent)
    (hseq : ∀ e ∈ events, eventNow e ≤ eventSend e)
    (htag : ∀ e ∈ events, gatedTag e = some tag ∨ strIncludes (eventSubject e) tag = false) :
    cooldownSeparated tag cool (runTrace cfg events) := by
  have hgc : ∀ e : JobEvent, gatedTag e = some tag → gateCool e = some cool := by
    intro e hge
    rcases hkind with ⟨rfl, rfl⟩ | ⟨rfl, rfl⟩ <;> cases e <;> simp_all [gatedTag, gateCool]
  exact cooldown_fold tag cool cfg hgc events hseq htag [] List.Pairwise.nil

/-- Witness for C1 (amended) on a concrete one-firing trace. -/
theorem c1_cooldown_separation_witness :
    ((("Due" : String) = "Due" ∧ (4 * 60 * 60 * 1000 : Int) = 4 * 60 * 60 * 1000) ∨
      (("Due" : String) = "Focus" ∧ (4 * 60 * 60 * 1000 : Int) = 2 * 60 * 60 * 1000)) ∧
    (∀ e ∈ w1Trace, eventNow e ≤ eventSend e) ∧
    (∀ e ∈ w1Trace, gatedTag e = some "Due" ∨ strIncludes (eventSubject e) "Due" = false) ∧
    cooldownSeparated "Due" (4 * 60 * 60 * 1000) (runTrace cfgOn w1Trace) :=
  ⟨Or.inl ⟨rfl, rfl⟩, by decide, by decide,
   c1_cooldown_separation "Due" (4 * 60 * 60 * 1000) (Or.inl ⟨rfl, rfl⟩) cfgOn w1Trace
     (by decide) (by decide)⟩

/-- Counterexample to C1 as stated: a focus check-in is logged at time
0; one minute later a due firing passes its own `Due` gate and logs the
oracle-chosen subject `⚠️ Focus: pay bills now`, which contains
`Focus` — two `Focus`-tagged entries 60 000 ms apart, far inside the
2-hour focus cool-down. -/
theorem c1_counterexample :
    ((runTrace cfgOn ce1Trace).map (fun n => (n.type, n.sentAt)) =
      [("🎯 Focus Check-in — 9:00 AM", 0), ("⚠️ Focus: pay bills now", 60000)]) ∧
    strIncludes "🎯 Focus Check-in — 9:00 AM" "Focus" = true ∧
    strIncludes "⚠️ Focus: pay bills now" "Focus" = true ∧
    ((60000 : Int) < 0 + 2 * 60 * 60 * 1000) ∧
    ¬ cooldownSeparated "Focus" (2 * 60 * 60 * 1000) (runTrace cfgOn ce1Trace) := by
  refine ⟨by decide, by decide, by decide, by decide, ?_⟩
  exact not_cooldownSeparated_pair "Focus" (2 * 60 * 60 * 1000) (runTrace cfgOn ce1Trace)
    "🎯 Focus Check-in — 9:00 AM" "⚠️ Focus: pay bills now" 0 60000
    (by decide) (by decide) (by decide) (by decide)

/-- C10: the voice-routine endpoint `GET /webhook/routine/:cmd` is
served without any check of the `x-api-secret` credential (the response
and resulting store are identical whatever that header holds), and for
`cmd = "add"` with non-empty task text a successful handling replaces
the stored tasks list with the previous list plus exactly one appended
task whose `done` is `false` and whose `dueDate` is `null`, leaving
every previously stored task (the appended list keeps the old prefix)
and every other store key unchanged. -/
theorem c10_webhook_no_auth_and_add (store : Store) (sec sec2 qt qq : Option String)
    (cmd reply idLex createdAt : String) (nowMs : Int)
    (extra : String) (ts : List Json) (parsed : Json) :
    (handleRoutineGet store ⟨sec, qt, qq⟩ cmd reply idLex createdAt nowMs =
      handleRoutineGet store ⟨sec2, qt, qq⟩ cmd reply idLex createdAt nowMs) ∧
    (¬ (extra = "") →
      dbGet store "tasks" = GetResult.value (Json.arr ts) →
      ¬ (dbGet store "goals" = GetResult.error) →
      parseJSON reply = some parsed →
      ((handleRoutineGet store ⟨sec, some extra, qq⟩ "add" reply idLex createdAt nowMs).2 "tasks" =
          some (stringifyStr (Json.arr (ts ++ [mkRoutineTask idLex parsed createdAt]))) ∧
        (∀ k2, ¬ (k2 = "tasks") →
          (handleRoutineGet store ⟨sec, some extra, qq⟩ "add" reply idLex createdAt nowMs).2 k2 =
            store k2) ∧
        jsField (mkRoutineTask idLex parsed createdAt) "done" = some (Json.bool false) ∧
        jsField (mkRoutineTask idLex parsed createdAt) "dueDate" = some Json.null)) := by
  refine ⟨rfl, fun hx ht hg hp => ?_⟩
  obtain ⟨ha, hb⟩ :=
    routineAdd_effect store sec qq reply idLex createdAt extra nowMs ts parsed hx ht hg hp
  exact ⟨ha, hb, (mkRoutineTask_done_dueDate idLex parsed createdAt).1,
    (mkRoutineTask_done_dueDate idLex parsed createdAt).2⟩

/-- Witness for C10 at a freshly initialised store and a concrete voice
command. -/
theorem c10_webhook_no_auth_and_add_witness :
    (¬ (("buy milk" : String) = "")) ∧
    dbGet (initDb emptyStore) "tasks" = GetResult.value (Json.arr []) ∧
    (¬ (dbGet (initDb emptyStore) "goals" = GetResult.error)) ∧
    parseJSON addReplyEx = some addParsedEx ∧
    ((handleRoutineGet (initDb emptyStore) ⟨some "secret", some "buy milk", none⟩ "add"
        addReplyEx "17.5" "2025-10-11T00:00:00.000Z" 0).2 "tasks" =
        some (stringifyStr (Json.arr ([] ++ [mkRoutineTask "17.5" addParsedEx "2025-10-11T00:00:00.000Z"]))) ∧
      (∀ k2, ¬ (k2 = "tasks") →
        (handleRoutineGet (initDb emptyStore) ⟨some "secret", some "buy milk", none⟩ "add"
          addReplyEx "17.5" "2025-10-11T00:00:00.000Z" 0).2 k2 = initDb emptyStore k2) ∧
      jsField (mkRoutineTask "17.5" addParsedEx "2025-10-11T00:00:00.000Z") "done" =
        some (Json.bool false) ∧
      jsField (mkRoutineTask "17.5" addParsedEx "2025-10-11T00:00:00.000Z") "dueDate" =
        some Json.null) :=
  ⟨by decide, by decide, by decide, by decide,
   (c10_webhook_no_auth_and_add (initDb emptyStore) (some "secret") (some "secret")
      (some "buy milk") none "add" addReplyEx "17.5" "2025-10-11T00:00:00.000Z" 0
      "buy milk" [] addParsedEx).2 (by decide) (by decide) (by decide) (by decide)⟩

/-- Witness for C6 at a fresh store plus one unrelated set, and for
idempotence at an already-populated store. -/
theorem c6_defaults_and_idempotent_witness :
    (("tasks", "[]") ∈ storeDefaults) ∧ emptyStore "tasks" = none ∧
    (∀ op ∈ [(("goals" : String), Json.num "1")], op.1 ≠ "tasks") ∧
    dbGet (applySets [("goals", Json.num "1")] (initDb emptyStore)) "tasks" =
      GetResult.value (if "tasks" = "memory" then Json.str "" else Json.arr []) ∧
    (demoStore "x").isSome ∧ initDb demoStore "x" = demoStore "x" :=
  ⟨by decide, rfl, by decide,
   c6_defaults_and_idempotent.1 ("tasks", "[]") (by decide) emptyStore rfl
     [("goals", Json.num "1")] (by decide),
   by decide,
   c6_defaults_and_idempotent.2 demoStore "x" (by decide)⟩



/- ───────────────── store round-trip lemmas (C7) ───────────────── -/

theorem expectLit_self (pat : List Char) (res : Json) (rest : List Char) :
    expectLit pat res (pat ++ rest) = some (res, rest) := by
  rw [expectLit, if_pos ((leadsWith_iff pat _).mpr ⟨rest, rfl⟩), List.drop_left]

theorem skipWs_cons_notws (c : Char) (w : List Char) (h : jsonWsChar c = false) :
    skipWs (c :: w) = c :: w := by
  rw [skipWs, List.dropWhile_cons_of_neg (by simp [h])]

theorem escapeChar_length_pos (c : Char) : 1 ≤ (escapeChar c).length := by
  rw [escapeChar]
  split_ifs <;> simp

theorem escapeList_length : ∀ (s : List Char), s.length ≤ (escapeList s).length := by
  intro s
  induction s with
  | nil => simp [escapeList]
  | cons c cs ih =>
    rw [escapeList]
    have := escapeChar_length_pos c
    simp only [List.length_append, List.length_cons]
    omega

theorem hexVal_hexDigitChar (x : Nat) (h : x < 16) : hexVal (hexDigitChar x) = some x := by
  interval_cases x <;> decide

theorem stringifyElems_eq : ∀ (vs : List Json) (v : Json),
    stringifyElems (v :: vs) = stringifyJson v ++ arrTail vs := by
  intro vs
  induction vs with
  | nil =>
    intro v
    rw [show stringifyElems [v] = stringifyJson v from rfl, arrTail, List.append_nil]
  | cons w ws ih =>
    intro v
    rw [show stringifyElems (v :: w :: ws) =
      stringifyJson v ++ ',' :: stringifyElems (w :: ws) from rfl]
    rw [ih w, arrTail]

theorem stringifyMembers_eq : ∀ (vs : List (String × Json)) (k : String) (v : Json),
    stringifyMembers ((k, v) :: vs) =
      '"' :: (escapeList k.data ++ '"' :: ':' :: (stringifyJson v ++ objTail vs)) := by
  intro vs
  induction vs with
  | nil =>
    intro k v
    rw [show stringifyMembers [(k, v)] =
      '"' :: escapeList k.data ++ '"' :: ':' :: stringifyJson v from rfl, objTail]
    simp
  | cons p ws ih =>
    intro k v
    obtain ⟨k2, w⟩ := p
    rw [show stringifyMembers ((k, v) :: (k2, w) :: ws) =
      '"' :: escapeList k.data ++ '"' :: ':' :: stringifyJson v ++
        ',' :: stringifyMembers ((k2, w) :: ws) from rfl]
    rw [ih k2 w, objTail]
    simp

theorem numDelim_nil : NumDelim [] := by
  intro d tl h
  cases h

theorem numDelim_arrTail (vs : List Json) (rest : List Char) :
    NumDelim (arrTail vs ++ ']' :: rest) := by
  rcases vs with _ | ⟨w, vs⟩
  · intro d tl h
    rw [arrTail, List.nil_append] at h
    cases h
    exact .inr (.inl rfl)
  · intro d tl h
    rw [arrTail, List.cons_append] at h
    cases h
    exact .inl rfl

theorem numDelim_objTail (vs : List (String × Json)) (rest : List Char) :
    NumDelim (objTail vs ++ '}' :: rest) := by
  rcases vs with _ | ⟨⟨k, w⟩, vs⟩
  · intro d tl h
    rw [objTail, List.nil_append] at h
    cases h
    exact .inr (.inr rfl)
  · intro d tl h
    rw [objTail, List.cons_append] at h
    cases h
    exact .inl rfl

theorem numDelim_digit (rest : List Char) (h : NumDelim rest) :
    ∀ d tl, rest = d :: tl → d.isDigit = false := by
  intro d tl he
  rcases h d tl he with rfl | rfl | rfl <;> decide

theorem numDelim_dot (rest : List Char) (h : NumDelim rest) : ∀ tl, ¬ rest = '.' :: tl := by
  intro tl he
  rcases h '.' tl he with h2 | h2 | h2 <;> exact absurd h2 (by decide)

theorem numDelim_exp (rest : List Char) (h : NumDelim rest) :
    ∀ d tl, rest = d :: tl → ¬ (d = 'e' ∨ d = 'E') := by
  intro d tl he
  rcases h d tl he with rfl | rfl | rfl <;> decide

theorem sizeOf_json_pos (v : Json) : 1 ≤ sizeOf v := by
  cases v <;> simp

theorem sizeOf_arr_mem (l : List Json) (v : Json) (h : v ∈ l) :
    sizeOf v < sizeOf (Json.arr l) := by
  have h1 : sizeOf v < sizeOf l := List.sizeOf_lt_of_mem h
  have h2 : sizeOf l < sizeOf (Json.arr l) := by
    simp [Json.arr.sizeOf_spec]
  omega

theorem sizeOf_obj_mem (l : List (String × Json)) (p : String × Json) (h : p ∈ l) :
    sizeOf p.2 < sizeOf (Json.obj l) := by
  have h1 : sizeOf p < sizeOf l := List.sizeOf_lt_of_mem h
  have h2 : sizeOf p.2 < sizeOf p := by
    obtain ⟨a, b⟩ := p
    simp
  have h3 : sizeOf l < sizeOf (Json.obj l) := by
    simp [Json.obj.sizeOf_spec]
  omega

theorem jsonWFList_mem : ∀ (l : List Json), jsonWFList l = true → ∀ w ∈ l, jsonWF w = true := by
  intro l
  induction l with
  | nil => intro _ w hw; simp at hw
  | cons v vs ih =>
    intro h w hw
    rw [jsonWFList] at h
    simp only [Bool.and_eq_true] at h
    rcases List.mem_cons.mp hw with rfl | hw2
    · exact h.1
    · exact ih h.2 w hw2

theorem jsonWFFields_mem : ∀ (l : List (String × Json)), jsonWFFields l = true →
    ∀ p ∈ l, jsonWF p.2 = true := by
  intro l
  induction l with
  | nil => intro _ p hp; simp at hp
  | cons q vs ih =>
    intro h p hp
    obtain ⟨k, v⟩ := q
    rw [jsonWFFields] at h
    simp only [Bool.and_eq_true] at h
    rcases List.mem_cons.mp hp with rfl | hp2
    · exact h.1
    · exact ih h.2 p hp2


theorem parseStrBody_esc_step (m : Nat) (c e : Char) (cs rest : List Char)
    (hm : escMap e = some c) (hne : ¬ e = 'u')
    (hih : parseStrBody m (escapeList cs ++ '"' :: rest) = some (cs, rest)) :
    parseStrBody (m + 1) ('\\' :: e :: (escapeList cs ++ '"' :: rest)) = some (c :: cs, rest) := by
  rw [parseStrBody_cons_eq]
  rw [if_neg (by decide), if_pos rfl]
  show (if e = 'u' then
          (match (escapeList cs ++ '"' :: rest : List Char) with
           | h1 :: h2 :: h3 :: h4 :: cs3 =>
             match hexVal h1, hexVal h2, hexVal h3, hexVal h4 with
             | some a, some b, some c2, some d =>
               (parseStrBody m cs3).map
                 (fun r => (Char.ofNat (4096 * a + 256 * b + 16 * c2 + d) :: r.1, r.2))
             | _, _, _, _ => none
           | _ => none)
        else
          match escMap e with
          | some ch => (parseStrBody m (escapeList cs ++ '"' :: rest)).map
              (fun r => (ch :: r.1, r.2))
          | none => none) = some (c :: cs, rest)
  rw [if_neg hne, hm]
  show (parseStrBody m (escapeList cs ++ '"' :: rest)).map (fun r => (c :: r.1, r.2)) =
    some (c :: cs, rest)
  rw [hih]
  rfl

theorem parseStrBody_u_step (m : Nat) (c : Char) (cs rest : List Char)
    (hlt : c.toNat < 32)
    (hih : parseStrBody m (escapeList cs ++ '"' :: rest) = some (cs, rest)) :
    parseStrBody (m + 1)
      ('\\' :: 'u' :: '0' :: '0' :: hexDigitChar (c.toNat / 16) :: hexDigitChar (c.toNat % 16) ::
        (escapeList cs ++ '"' :: rest)) = some (c :: cs, rest) := by
  rw [parseStrBody_cons_eq]
  rw [if_neg (by decide), if_pos rfl]
  show (if 'u' = 'u' then
          (match ('0' :: '0' :: hexDigitChar (c.toNat / 16) :: hexDigitChar (c.toNat % 16) ::
              (escapeList cs ++ '"' :: rest) : List Char) with
           | h1 :: h2 :: h3 :: h4 :: cs3 =>
             match hexVal h1, hexVal h2, hexVal h3, hexVal h4 with
             | some a, some b, some c2, some d =>
               (parseStrBody m cs3).map
                 (fun r => (Char.ofNat (4096 * a + 256 * b + 16 * c2 + d) :: r.1, r.2))
             | _, _, _, _ => none
           | _ => none)
        else
          match escMap 'u' with
          | some ch => (parseStrBody m (escapeList cs ++ '"' :: rest)).map
              (fun r => (ch :: r.1, r.2))
          | none => none) = some (c :: cs, rest)
  rw [if_pos rfl]
  show (match hexVal '0', hexVal '0', hexVal (hexDigitChar (c.toNat / 16)),
          hexVal (hexDigitChar (c.toNat % 16)) with
        | some a, some b, some c2, some d =>
          (parseStrBody m (escapeList cs ++ '"' :: rest)).map
            (fun r => (Char.ofNat (4096 * a + 256 * b + 16 * c2 + d) :: r.1, r.2))
        | _, _, _, _ => none) = some (c :: cs, rest)
  rw [hexVal_hexDigitChar (c.toNat / 16) (by omega), hexVal_hexDigitChar (c.toNat % 16) (by omega)]
  show (parseStrBody m (escapeList cs ++ '"' :: rest)).map
      (fun r => (Char.ofNat (4096 * 0 + 256 * 0 + 16 * (c.toNat / 16) + c.toNat % 16) :: r.1, r.2)) =
    some (c :: cs, rest)
  rw [hih]
  show some (Char.ofNat (4096 * 0 + 256 * 0 + 16 * (c.toNat / 16) + c.toNat % 16) :: cs, rest) =
    some (c :: cs, rest)
  rw [show 4096 * 0 + 256 * 0 + 16 * (c.toNat / 16) + c.toNat % 16 = c.toNat by omega,
    Char.ofNat_toNat]

theorem parseStrBody_plain_step (m : Nat) (c : Char) (cs rest : List Char)
    (h1 : ¬ c = '"') (h2 : ¬ c = '\\') (h3 : ¬ c.toNat < 32)
    (hih : parseStrBody m (escapeList cs ++ '"' :: rest) = some (cs, rest)) :
    parseStrBody (m + 1) (c :: (escapeList cs ++ '"' :: rest)) = some (c :: cs, rest) := by
  rw [parseStrBody_cons_eq, if_neg h1, if_neg h2, if_neg h3, hih]
  rfl

theorem parseStrBody_roundtrip : ∀ (s : List Char) (fuel : Nat) (rest : List Char),
    s.length + 1 ≤ fuel →
    parseStrBody fuel (escapeList s ++ '"' :: rest) = some (s, rest) := by
  intro s
  induction s with
  | nil =>
    intro fuel rest hf
    rcases fuel with _ | m
    · omega
    · rfl
  | cons c cs ih =>
    intro fuel rest hf
    rcases fuel with _ | m
    · omega
    have hih := ih m rest (by simp at hf ⊢; omega)
    rw [show escapeList (c :: cs) ++ '"' :: rest =
      escapeChar c ++ (escapeList cs ++ '"' :: rest) from by rw [escapeList, List.append_assoc]]
    by_cases h1 : c = '"'
    · subst h1
      exact parseStrBody_esc_step m '"' '"' cs rest (by decide) (by decide) hih
    by_cases h2 : c = '\\'
    · subst h2
      exact parseStrBody_esc_step m '\\' '\\' cs rest (by decide) (by decide) hih
    by_cases h3 : c = '\x08'
    · subst h3
      exact parseStrBody_esc_step m '\x08' 'b' cs rest (by decide) (by decide) hih
    by_cases h4 : c = '\x0c'
    · subst h4
      exact parseStrBody_esc_step m '\x0c' 'f' cs rest (by decide) (by decide) hih
    by_cases h5 : c = '\n'
    · subst h5
      exact parseStrBody_esc_step m '\n' 'n' cs rest (by decide) (by decide) hih
    by_cases h6 : c = '\r'
    · subst h6
      exact parseStrBody_esc_step m '\r' 'r' cs rest (by decide) (by decide) hih
    by_cases h7 : c = '\t'
    · subst h7
      exact parseStrBody_esc_step m '\t' 't' cs rest (by decide) (by decide) hih
    by_cases h8 : c.toNat < 32
    · rw [show escapeChar c =
        ['\\', 'u', '0', '0', hexDigitChar (c.toNat / 16), hexDigitChar (c.toNat % 16)] from by
        rw [escapeChar, if_neg h1, if_neg h2, if_neg h3, if_neg h4, if_neg h5, if_neg h6,
          if_neg h7, if_pos h8]]
      exact parseStrBody_u_step m c cs rest h8 hih
    · rw [show escapeChar c = [c] from by
        rw [escapeChar, if_neg h1, if_neg h2, if_neg h3, if_neg h4, if_neg h5, if_neg h6,
          if_neg h7, if_neg h8]]
      exact parseStrBody_plain_step m c cs rest h1 h2 h8 hih


theorem spanDigits_extend : ∀ (ds : List Char), (∀ c ∈ ds, c.isDigit = true) →
    ∀ rest, (∀ d tl, rest = d :: tl → d.isDigit = false) →
    spanDigits (ds ++ rest) = (ds, rest) := by
  intro ds
  induction ds with
  | nil =>
    intro _ rest hrest
    rw [List.nil_append, spanDigits]
    rcases rest with _ | ⟨d, tl⟩
    · rfl
    · have hd := hrest d tl rfl
      rw [List.takeWhile_cons_of_neg (by simp [hd]), List.dropWhile_cons_of_neg (by simp [hd])]
  | cons c cs ih =>
    intro hds rest hrest
    have hc : c.isDigit = true := hds c (List.mem_cons_self c cs)
    rw [List.cons_append, spanDigits, List.takeWhile_cons_of_pos hc,
      List.dropWhile_cons_of_pos hc]
    have hih := ih (fun x hx => hds x (List.mem_cons_of_mem c hx)) rest hrest
    rw [spanDigits] at hih
    simp only [Prod.mk.injEq] at hih
    rw [hih.1, hih.2]

theorem spanDigits_append_extend (t rest : List Char)
    (hrest : ∀ d tl, rest = d :: tl → d.isDigit = false) :
    spanDigits (t ++ rest) = ((spanDigits t).1, (spanDigits t).2 ++ rest) := by
  have hsplit := spanDigits_append t
  have hdig := spanDigits_digits t
  rcases hb : (spanDigits t).2 with _ | ⟨x, b2⟩
  · have h1 : t ++ rest = (spanDigits t).1 ++ rest := by
      conv_lhs => rw [hsplit, hb]
      simp
    rw [h1, spanDigits_extend _ hdig rest hrest]
    simp
  · have hx : x.isDigit = false := by
      have hdw : t.dropWhile Char.isDigit = x :: b2 := hb
      exact dropWhile_head_false Char.isDigit t x b2 hdw
    have h1 : t ++ rest = (spanDigits t).1 ++ (x :: (b2 ++ rest)) := by
      conv_lhs => rw [hsplit, hb]
      simp
    have hx2 : ∀ d tl, (x :: (b2 ++ rest) : List Char) = d :: tl → d.isDigit = false := by
      intro d tl he
      cases he
      exact hx
    rw [h1, spanDigits_extend _ hdig _ hx2]
    rfl

theorem parseIntPart_extend (cs i r rest : List Char) (h : parseIntPart cs = some (i, r))
    (hrest : ∀ d tl, rest = d :: tl → d.isDigit = false) :
    parseIntPart (cs ++ rest) = some (i, r ++ rest) := by
  rcases cs with _ | ⟨d, t⟩
  · rw [parseIntPart] at h; simp at h
  · rw [parseIntPart] at h
    rw [List.cons_append, parseIntPart]
    by_cases h0 : d = '0'
    · rw [if_pos h0] at h ⊢
      simp only [Option.some.injEq, Prod.mk.injEq] at h
      obtain ⟨rfl, rfl⟩ := h
      rfl
    · rw [if_neg h0] at h ⊢
      by_cases hd : d.isDigit
      · rw [if_pos hd] at h ⊢
        simp only [Option.some.injEq, Prod.mk.injEq] at h
        obtain ⟨rfl, rfl⟩ := h
        rw [spanDigits_append_extend t rest hrest]
      · rw [if_neg hd] at h
        simp at h

theorem parseFracPart_extend (cs f r rest : List Char) (h : parseFracPart cs = some (f, r))
    (hdig : ∀ d tl, rest = d :: tl → d.isDigit = false)
    (hdot : ∀ tl, ¬ rest = '.' :: tl) :
    parseFracPart (cs ++ rest) = some (f, r ++ rest) := by
  rcases cs with _ | ⟨c, t⟩
  · rw [parseFracPart] at h
    simp only [Option.some.injEq, Prod.mk.injEq] at h
    obtain ⟨rfl, rfl⟩ := h
    rw [List.nil_append]
    rcases rest with _ | ⟨d, tl⟩
    · rfl
    · have hnd : ¬ d = '.' := by
        intro he
        exact hdot tl (by rw [he])
      rw [parseFracPart, if_neg hnd]
  · rw [parseFracPart] at h
    rw [List.cons_append, parseFracPart]
    by_cases hc : c = '.'
    · rw [if_pos hc] at h ⊢
      by_cases hp : (spanDigits t).1 = []
      · rw [if_pos hp] at h; simp at h
      · rw [if_neg hp] at h
        simp only [Option.some.injEq, Prod.mk.injEq] at h
        obtain ⟨rfl, rfl⟩ := h
        rw [spanDigits_append_extend t rest hdig]
        show (if (spanDigits t).1 = [] then none
          else some ('.' :: (spanDigits t).1, (spanDigits t).2 ++ rest)) =
          some ('.' :: (spanDigits t).1, (spanDigits t).2 ++ rest)
        rw [if_neg hp]
    · rw [if_neg hc] at h ⊢
      simp only [Option.some.injEq, Prod.mk.injEq] at h
      obtain ⟨rfl, rfl⟩ := h
      rfl

theorem parseExpPart_extend (cs e r rest : List Char) (h : parseExpPart cs = some (e, r))
    (hdig : ∀ d tl, rest = d :: tl → d.isDigit = false)
    (hexp : ∀ d tl, rest = d :: tl → ¬ (d = 'e' ∨ d = 'E')) :
    parseExpPart (cs ++ rest) = some (e, r ++ rest) := by
  rcases cs with _ | ⟨c, t⟩
  · rw [parseExpPart] at h
    simp only [Option.some.injEq, Prod.mk.injEq] at h
    obtain ⟨rfl, rfl⟩ := h
    rw [List.nil_append]
    rcases rest with _ | ⟨d, tl⟩
    · rfl
    · rcases tl with _ | ⟨s2, tl2⟩
      · rw [parseExpPart, if_neg (hexp d [] rfl)]
      · rw [parseExpPart, if_neg (hexp d (s2 :: tl2) rfl)]
  · rcases t with _ | ⟨s, t2⟩
    · rw [parseExpPart] at h
      by_cases hc : c = 'e' ∨ c = 'E'
      · rw [if_pos hc] at h; simp at h
      · rw [if_neg hc] at h
        simp only [Option.some.injEq, Prod.mk.injEq] at h
        obtain ⟨rfl, rfl⟩ := h
        rcases rest with _ | ⟨d, tl⟩
        · rw [List.append_nil, parseExpPart, if_neg hc]
        · rw [show ([c] : List Char) ++ (d :: tl) = c :: d :: tl from rfl,
            parseExpPart, if_neg hc]
    · rw [parseExpPart] at h
      by_cases hc : c = 'e' ∨ c = 'E'
      · rw [if_pos hc] at h
        rw [List.cons_append, List.cons_append, parseExpPart, if_pos hc]
        by_cases hs2 : s = '+' ∨ s = '-'
        · rw [if_pos hs2] at h ⊢
          by_cases hp : (spanDigits t2).1 = []
          · rw [if_pos hp] at h; simp at h
          · rw [if_neg hp] at h
            simp only [Option.some.injEq, Prod.mk.injEq] at h
            obtain ⟨rfl, rfl⟩ := h
            rw [spanDigits_append_extend t2 rest hdig]
            show (if (spanDigits t2).1 = [] then none
              else some (c :: s :: (spanDigits t2).1, (spanDigits t2).2 ++ rest)) =
              some (c :: s :: (spanDigits t2).1, (spanDigits t2).2 ++ rest)
            rw [if_neg hp]
        · rw [if_neg hs2] at h ⊢
          by_cases hp : (spanDigits (s :: t2)).1 = []
          · rw [if_pos hp] at h; simp at h
          · rw [if_neg hp] at h
            simp only [Option.some.injEq, Prod.mk.injEq] at h
            obtain ⟨rfl, rfl⟩ := h
            rw [show (s :: (t2 ++ rest) : List Char) = (s :: t2) ++ rest from rfl,
              spanDigits_append_extend (s :: t2) rest hdig]
            show (if (spanDigits (s :: t2)).1 = [] then none
              else some (c :: (spanDigits (s :: t2)).1, (spanDigits (s :: t2)).2 ++ rest)) =
              some (c :: (spanDigits (s :: t2)).1, (spanDigits (s :: t2)).2 ++ rest)
            rw [if_neg hp]
      · rw [if_neg hc] at h
        simp only [Option.some.injEq, Prod.mk.injEq] at h
        obtain ⟨rfl, rfl⟩ := h
        rw [List.cons_append, List.cons_append, parseExpPart, if_neg hc]

theorem parseNumberTail_extend (sign cs lex rest : List Char)
    (h : parseNumberTail sign cs = some (lex, []))
    (hdig : ∀ d tl, rest = d :: tl → d.isDigit = false)
    (hdot : ∀ tl, ¬ rest = '.' :: tl)
    (hexp : ∀ d tl, rest = d :: tl → ¬ (d = 'e' ∨ d = 'E')) :
    parseNumberTail sign (cs ++ rest) = some (lex, rest) := by
  rw [parseNumberTail] at h ⊢
  split at h
  · simp at h
  rename_i ipart r1 hi
  split at h
  · simp at h
  rename_i fpart r2 hf
  split at h
  · simp at h
  rename_i epart r3 he
  simp only [Option.some.injEq, Prod.mk.injEq] at h
  obtain ⟨rfl, hr3⟩ := h
  subst hr3
  rw [parseIntPart_extend cs ipart r1 rest hi hdig]
  show (match parseFracPart (r1 ++ rest) with
        | none => none
        | some (fpart2, r2x) =>
          match parseExpPart r2x with
          | none => none
          | some (epart2, r3x) => some (sign ++ ipart ++ fpart2 ++ epart2, r3x)) =
      some (sign ++ ipart ++ fpart ++ epart, rest)
  rw [parseFracPart_extend r1 fpart r2 rest hf hdig hdot]
  show (match parseExpPart (r2 ++ rest) with
        | none => none
        | some (epart2, r3x) => some (sign ++ ipart ++ fpart ++ epart2, r3x)) =
      some (sign ++ ipart ++ fpart ++ epart, rest)
  rw [parseExpPart_extend r2 epart [] rest he hdig hexp]
  rfl

theorem parseNumber_extend (cs lex rest : List Char) (h : parseNumber cs = some (lex, []))
    (hdig : ∀ d tl, rest = d :: tl → d.isDigit = false)
    (hdot : ∀ tl, ¬ rest = '.' :: tl)
    (hexp : ∀ d tl, rest = d :: tl → ¬ (d = 'e' ∨ d = 'E')) :
    parseNumber (cs ++ rest) = some (lex, rest) := by
  rcases cs with _ | ⟨c, t⟩
  · rw [parseNumber] at h; simp at h
  · rw [parseNumber] at h
    rw [List.cons_append, parseNumber]
    by_cases hc : c = '-'
    · rw [if_pos hc] at h ⊢
      exact parseNumberTail_extend ['-'] t lex rest h hdig hdot hexp
    · rw [if_neg hc] at h ⊢
      exact parseNumberTail_extend [] (c :: t) lex rest h hdig hdot hexp

theorem parseNumber_head (cs lex r : List Char) (h : parseNumber cs = some (lex, r)) :
    ∃ c t, cs = c :: t ∧ (c = '-' ∨ c = '0' ∨ c.isDigit = true) := by
  rcases cs with _ | ⟨c, t⟩
  · rw [parseNumber] at h; simp at h
  · refine ⟨c, t, rfl, ?_⟩
    by_cases hc : c = '-'
    · exact .inl hc
    · rw [parseNumber, if_neg hc, parseNumberTail] at h
      split at h
      · simp at h
      rename_i ipart r1 hi
      rw [parseIntPart] at hi
      by_cases h0 : c = '0'
      · exact .inr (.inl h0)
      · rw [if_neg h0] at hi
        by_cases hd : c.isDigit
        · exact .inr (.inr hd)
        · rw [if_neg hd] at hi
          simp at hi

theorem numHead_props (c : Char) (h : c = '-' ∨ c = '0' ∨ c.isDigit = true) :
    jsonWsChar c = false ∧ ¬ c = '{' ∧ ¬ c = '[' ∧ ¬ c = '"' ∧ ¬ c = 't' ∧ ¬ c = 'f' ∧
      ¬ c = 'n' ∧ ¬ c = ']' ∧ ¬ c = '}' ∧ ¬ c = ',' ∧ ¬ c = ':' := by
  have hb : 45 ≤ c.toNat ∧ c.toNat ≤ 57 ∧ ¬ c.toNat = 46 ∧ ¬ c.toNat = 47 := by
    rcases h with rfl | rfl | hd
    · refine ⟨by decide, by decide, by decide, by decide⟩
    · refine ⟨by decide, by decide, by decide, by decide⟩
    · simp [Char.isDigit] at hd
      obtain ⟨h1, h2⟩ := hd
      have h1n : 48 ≤ c.toNat := h1
      have h2n : c.toNat ≤ 57 := h2
      refine ⟨by omega, by omega, by omega, by omega⟩
  have hne : ∀ (d : Char), ¬ c.toNat = d.toNat → ¬ c = d := by
    intro d hd he
    exact hd (by rw [he])
  obtain ⟨hb1, hb2, hb3, hb4⟩ := hb
  refine ⟨?_, ?_, ?_, ?_, ?_, ?_, ?_, ?_, ?_, ?_, ?_⟩
  · rw [jsonWsChar]
    rw [decide_eq_false (hne ' ' (by rw [show (' ' : Char).toNat = 32 from rfl]; omega)),
      decide_eq_false (hne '\t' (by rw [show ('\t' : Char).toNat = 9 from rfl]; omega)),
      decide_eq_false (hne '\n' (by rw [show ('\n' : Char).toNat = 10 from rfl]; omega)),
      decide_eq_false (hne '\r' (by rw [show ('\r' : Char).toNat = 13 from rfl]; omega))]
    rfl
  · exact hne '{' (by rw [show ('{' : Char).toNat = 123 from rfl]; omega)
  · exact hne '[' (by rw [show ('[' : Char).toNat = 91 from rfl]; omega)
  · exact hne '"' (by rw [show ('"' : Char).toNat = 34 from rfl]; omega)
  · exact hne 't' (by rw [show ('t' : Char).toNat = 116 from rfl]; omega)
  · exact hne 'f' (by rw [show ('f' : Char).toNat = 102 from rfl]; omega)
  · exact hne 'n' (by rw [show ('n' : Char).toNat = 110 from rfl]; omega)
  · exact hne ']' (by rw [show (']' : Char).toNat = 93 from rfl]; omega)
  · exact hne '}' (by rw [show ('}' : Char).toNat = 125 from rfl]; omega)
  · exact hne ',' (by rw [show (',' : Char).toNat = 44 from rfl]; omega)
  · exact hne ':' (by rw [show (':' : Char).toNat = 58 from rfl]; omega)


theorem stringify_head (v : Json) (hwf : jsonWF v = true) :
    ∃ c t, stringifyJson v = c :: t ∧ jsonWsChar c = false ∧ ¬ c = ']' ∧ ¬ c = '}' := by
  cases v with
  | null => exact ⟨'n', "ull".data, rfl, by decide, by decide, by decide⟩
  | bool b =>
    cases b
    · exact ⟨'f', "alse".data, rfl, by decide, by decide, by decide⟩
    · exact ⟨'t', "rue".data, rfl, by decide, by decide, by decide⟩
  | num lex =>
    have hwf2 : decide (parseNumber lex.data = some (lex.data, [])) = true := hwf
    have hwf3 := of_decide_eq_true hwf2
    obtain ⟨c, t, hct, hcp⟩ := parseNumber_head lex.data lex.data [] hwf3
    obtain ⟨hws, _, _, _, _, _, _, hrb, hcb, _, _⟩ := numHead_props c hcp
    exact ⟨c, t, hct, hws, hrb, hcb⟩
  | str s => exact ⟨'"', escapeList s.data ++ ['"'], rfl, by decide, by decide, by decide⟩
  | arr l => exact ⟨'[', stringifyElems l ++ [']'], rfl, by decide, by decide, by decide⟩
  | obj l => exact ⟨'{', stringifyMembers l ++ ['}'], rfl, by decide, by decide, by decide⟩

theorem parseArrStart_step (n : Nat) (c : Char) (t : List Char) (v1 : Json) (r1 : List Char)
    (hws : jsonWsChar c = false) (hnb : ¬ c = ']')
    (hv : parseValue n (c :: t) = some (v1, r1)) :
    parseArrStart (n + 1) (c :: t) = parseArrRest n [v1] r1 := by
  rw [parseArrStart_succ_eq, skipWs_cons_notws c t hws]
  split
  · rename_i r hr
    injection hr with hr1 hr2
    exact absurd hr1 hnb
  · rw [hv]

theorem parseObjStart_step (n : Nat) (c : Char) (t : List Char) (k1 : String) (v1 : Json)
    (r1 : List Char)
    (hws : jsonWsChar c = false) (hnb : ¬ c = '}')
    (hm : parseMember n (c :: t) = some (k1, v1, r1)) :
    parseObjStart (n + 1) (c :: t) = parseObjRest n [(k1, v1)] r1 := by
  rw [parseObjStart_succ_eq, skipWs_cons_notws c t hws]
  split
  · rename_i r hr
    injection hr with hr1 hr2
    exact absurd hr1 hnb
  · rw [hm]

theorem parseMember_roundtrip (k : String) (w : Json) (fuel : Nat) (tail : List Char)
    (hw : RT w) (hfuel : 2 * (stringifyJson w).length + 2 ≤ fuel) (htail : NumDelim tail) :
    parseMember fuel ('"' :: (escapeList k.data ++ '"' :: ':' :: (stringifyJson w ++ tail))) =
      some (k, w, tail) := by
  rcases fuel with _ | m
  · omega
  rw [parseMember_succ_eq]
  show (match parseStrBody ((escapeList k.data ++ '"' :: ':' :: (stringifyJson w ++ tail)).length + 1)
          (escapeList k.data ++ '"' :: ':' :: (stringifyJson w ++ tail)) with
        | some (k2, r2) =>
          match skipWs r2 with
          | ':' :: r3 =>
            match parseValue m r3 with
            | some (v2, r4) => some (String.mk k2, v2, r4)
            | none => none
          | _ => none
        | none => none) = some (k, w, tail)
  rw [parseStrBody_roundtrip k.data _ (':' :: (stringifyJson w ++ tail)) (by
    have := escapeList_length k.data
    simp only [List.length_append, List.length_cons]
    omega)]
  show (match parseValue m (stringifyJson w ++ tail) with
        | some (v2, r4) => some (String.mk k.data, v2, r4)
        | none => none) = some (k, w, tail)
  rw [hw m tail (by omega) htail]

theorem parseArrRest_loop : ∀ (vs : List Json) (acc : List Json) (fuel : Nat) (rest : List Char),
    (∀ w ∈ vs, jsonWF w = true ∧ RT w) →
    2 * (arrTail vs).length + 1 ≤ fuel → NumDelim rest →
    parseArrRest fuel acc (arrTail vs ++ ']' :: rest) = some (.arr (acc ++ vs), rest) := by
  intro vs
  induction vs with
  | nil =>
    intro acc fuel rest _ hfuel _
    rcases fuel with _ | m
    · omega
    · rw [List.append_nil]
      rfl
  | cons w vs ih =>
    intro acc fuel rest hmem hfuel hrest
    have hlen : (arrTail (w :: vs)).length =
        1 + (stringifyJson w).length + (arrTail vs).length := by
      rw [arrTail]
      simp only [List.length_cons, List.length_append]
      omega
    rcases fuel with _ | m
    · omega
    have hw := hmem w (List.mem_cons_self w vs)
    rw [show arrTail (w :: vs) ++ ']' :: rest =
      ',' :: ((stringifyJson w ++ arrTail vs) ++ ']' :: rest) from by
      rw [arrTail, List.cons_append]]
    rw [parseArrRest_succ_eq]
    show (match parseValue m ((stringifyJson w ++ arrTail vs) ++ ']' :: rest) with
          | some (v, r2) => parseArrRest m (acc ++ [v]) r2
          | none => none) = some (.arr (acc ++ (w :: vs)), rest)
    rw [List.append_assoc]
    rw [hw.2 m (arrTail vs ++ ']' :: rest) (by omega) (numDelim_arrTail vs rest)]
    show parseArrRest m (acc ++ [w]) (arrTail vs ++ ']' :: rest) =
      some (.arr (acc ++ (w :: vs)), rest)
    rw [ih (acc ++ [w]) m rest (fun x hx => hmem x (List.mem_cons_of_mem w hx)) (by omega) hrest]
    simp

theorem parseObjRest_loop : ∀ (vs : List (String × Json)) (acc : List (String × Json))
    (fuel : Nat) (rest : List Char),
    (∀ p ∈ vs, jsonWF p.2 = true ∧ RT p.2) →
    2 * (objTail vs).length + 1 ≤ fuel → NumDelim rest →
    parseObjRest fuel acc (objTail vs ++ '}' :: rest) = some (.obj (acc ++ vs), rest) := by
  intro vs
  induction vs with
  | nil =>
    intro acc fuel rest _ hfuel _
    rcases fuel with _ | m
    · omega
    · rw [List.append_nil]
      rfl
  | cons p vs ih =>
    intro acc fuel rest hmem hfuel hrest
    obtain ⟨k, w⟩ := p
    have hlen : (objTail ((k, w) :: vs)).length =
        4 + (escapeList k.data).length + (stringifyJson w).length + (objTail vs).length := by
      rw [objTail]
      simp only [List.length_cons, List.length_append]
      omega
    rcases fuel with _ | m
    · omega
    have hw := hmem (k, w) (List.mem_cons_self (k, w) vs)
    rw [show objTail ((k, w) :: vs) ++ '}' :: rest =
      ',' :: ('"' :: (escapeList k.data ++ '"' :: ':' :: (stringifyJson w ++
        (objTail vs ++ '}' :: rest)))) from by
      rw [objTail, List.cons_append, List.cons_append]
      simp [List.append_assoc]]
    rw [parseObjRest_succ_eq]
    show (match parseMember m ('"' :: (escapeList k.data ++ '"' :: ':' :: (stringifyJson w ++
            (objTail vs ++ '}' :: rest)))) with
          | some (k2, v2, r2) => parseObjRest m (acc ++ [(k2, v2)]) r2
          | none => none) = some (.obj (acc ++ ((k, w) :: vs)), rest)
    rw [parseMember_roundtrip k w m (objTail vs ++ '}' :: rest) hw.2 (by omega)
      (numDelim_objTail vs rest)]
    show parseObjRest m (acc ++ [(k, w)]) (objTail vs ++ '}' :: rest) =
      some (.obj (acc ++ ((k, w) :: vs)), rest)
    rw [ih (acc ++ [(k, w)]) m rest (fun x hx => hmem x (List.mem_cons_of_mem (k, w) hx))
      (by omega) hrest]
    simp


theorem rt_of_wf : ∀ (n : Nat) (v : Json), sizeOf v ≤ n → jsonWF v = true → RT v := by
  intro n
  induction n with
  | zero =>
    intro v hsz _
    have := sizeOf_json_pos v
    omega
  | succ n ihn =>
    intro v hsz hwf
    cases v with
    | null =>
      intro fuel rest hfuel _
      rcases fuel with _ | m
      · have : (stringifyJson Json.null).length = 4 := rfl
        omega
      · exact expectLit_self "ull".data .null rest
    | bool b =>
      intro fuel rest hfuel _
      rcases fuel with _ | m
      · cases b
        · have : (stringifyJson (Json.bool false)).length = 5 := rfl
          omega
        · have : (stringifyJson (Json.bool true)).length = 4 := rfl
          omega
      · cases b
        · exact expectLit_self "alse".data (.bool false) rest
        · exact expectLit_self "rue".data (.bool true) rest
    | num lex =>
      have hwf2 : decide (parseNumber lex.data = some (lex.data, [])) = true := hwf
      have hpn := of_decide_eq_true hwf2
      obtain ⟨c, t, hct, hcp⟩ := parseNumber_head lex.data lex.data [] hpn
      obtain ⟨hws, h1, h2, h3, h4, h5, h6, _, _, _, _⟩ := numHead_props c hcp
      intro fuel rest hfuel hrest
      rcases fuel with _ | m
      · have hlp : 1 ≤ (stringifyJson (Json.num lex)).length := by
          rw [show stringifyJson (Json.num lex) = lex.data from rfl, hct]
          simp
        omega
      have hext := parseNumber_extend lex.data lex.data rest hpn
        (numDelim_digit rest hrest) (numDelim_dot rest hrest) (numDelim_exp rest hrest)
      rw [show stringifyJson (Json.num lex) ++ rest = c :: (t ++ rest) from by
        rw [show stringifyJson (Json.num lex) = lex.data from rfl, hct, List.cons_append]]
      rw [parseValue_succ_eq, skipWs_cons_notws c (t ++ rest) hws]
      show (if c = '{' then parseObjStart m (t ++ rest)
            else if c = '[' then parseArrStart m (t ++ rest)
            else if c = '"' then
              match parseStrBody ((t ++ rest).length + 1) (t ++ rest) with
              | some (s, r) => some (.str (String.mk s), r)
              | none => none
            else if c = 't' then expectLit "rue".data (.bool true) (t ++ rest)
            else if c = 'f' then expectLit "alse".data (.bool false) (t ++ rest)
            else if c = 'n' then expectLit "ull".data .null (t ++ rest)
            else
              match parseNumber (c :: (t ++ rest)) with
              | some (lex2, r) => some (.num (String.mk lex2), r)
              | none => none) = some (.num lex, rest)
      rw [if_neg h1, if_neg h2, if_neg h3, if_neg h4, if_neg h5, if_neg h6]
      rw [show (c :: (t ++ rest) : List Char) = lex.data ++ rest from by
        rw [hct, List.cons_append], hext]
    | str s =>
      intro fuel rest hfuel hrest
      rcases fuel with _ | m
      · have hlp : (stringifyJson (Json.str s)).length = (escapeList s.data).length + 2 := by
          rw [show stringifyJson (Json.str s) = '"' :: escapeList s.data ++ ['"'] from rfl]
          simp
        omega
      rw [show stringifyJson (Json.str s) ++ rest =
          '"' :: (escapeList s.data ++ '"' :: rest) from by
        rw [show stringifyJson (Json.str s) = '"' :: escapeList s.data ++ ['"'] from rfl]
        simp]
      show (match parseStrBody ((escapeList s.data ++ '"' :: rest).length + 1)
              (escapeList s.data ++ '"' :: rest) with
            | some (s2, r) => some (Json.str (String.mk s2), r)
            | none => none) = some (Json.str s, rest)
      rw [parseStrBody_roundtrip s.data _ rest (by
        have := escapeList_length s.data
        simp only [List.length_append, List.length_cons]
        omega)]
    | arr l =>
      have hwfl : jsonWFList l = true := hwf
      have hmem : ∀ w ∈ l, jsonWF w = true ∧ RT w := by
        intro w hwm
        have hs1 := sizeOf_arr_mem l w hwm
        have hs2 : sizeOf (Json.arr l) ≤ n + 1 := hsz
        have hwfw := jsonWFList_mem l hwfl w hwm
        exact ⟨hwfw, ihn w (by omega) hwfw⟩
      intro fuel rest hfuel hrest
      have hflen : (stringifyJson (Json.arr l)).length = (stringifyElems l).length + 2 := by
        rw [show stringifyJson (Json.arr l) = '[' :: stringifyElems l ++ [']'] from rfl]
        simp
      rcases fuel with _ | m
      · omega
      rw [show stringifyJson (Json.arr l) ++ rest =
          '[' :: (stringifyElems l ++ ']' :: rest) from by
        rw [show stringifyJson (Json.arr l) = '[' :: stringifyElems l ++ [']'] from rfl]
        simp]
      show parseArrStart m (stringifyElems l ++ ']' :: rest) = some (.arr l, rest)
      rcases l with _ | ⟨v1, vs⟩
      · rcases m with _ | m2
        · omega
        · rfl
      · have hlen1 : (stringifyElems (v1 :: vs)).length =
            (stringifyJson v1).length + (arrTail vs).length := by
          rw [stringifyElems_eq vs v1]
          simp
        rw [stringifyElems_eq vs v1, List.append_assoc]
        obtain ⟨hwf1, hrt1⟩ := hmem v1 (List.mem_cons_self v1 vs)
        obtain ⟨c, t, hct, hcws, hcnb, _⟩ := stringify_head v1 hwf1
        rcases m with _ | m2
        · omega
        have hv1 : parseValue m2 (stringifyJson v1 ++ (arrTail vs ++ ']' :: rest)) =
            some (v1, arrTail vs ++ ']' :: rest) :=
          hrt1 m2 (arrTail vs ++ ']' :: rest) (by omega) (numDelim_arrTail vs rest)
        rw [hct, List.cons_append] at hv1 ⊢
        rw [parseArrStart_step m2 c (t ++ (arrTail vs ++ ']' :: rest)) v1
          (arrTail vs ++ ']' :: rest) hcws hcnb hv1]
        have hloop := parseArrRest_loop vs [v1] m2 rest
          (fun x hx => hmem x (List.mem_cons_of_mem v1 hx)) (by omega) hrest
        simpa using hloop
    | obj l =>
      have hwfl : jsonWFFields l = true := hwf
      have hmem : ∀ p ∈ l, jsonWF p.2 = true ∧ RT p.2 := by
        intro p hpm
        have hs1 := sizeOf_obj_mem l p hpm
        have hs2 : sizeOf (Json.obj l) ≤ n + 1 := hsz
        have hwfp := jsonWFFields_mem l hwfl p hpm
        exact ⟨hwfp, ihn p.2 (by omega) hwfp⟩
      intro fuel rest hfuel hrest
      have hflen : (stringifyJson (Json.obj l)).length = (stringifyMembers l).length + 2 := by
        rw [show stringifyJson (Json.obj l) = '{' :: stringifyMembers l ++ ['}'] from rfl]
        simp
      rcases fuel with _ | m
      · omega
      rw [show stringifyJson (Json.obj l) ++ rest =
          '{' :: (stringifyMembers l ++ '}' :: rest) from by
        rw [show stringifyJson (Json.obj l) = '{' :: stringifyMembers l ++ ['}'] from rfl]
        simp]
      show parseObjStart m (stringifyMembers l ++ '}' :: rest) = some (.obj l, rest)
      rcases l with _ | ⟨⟨k1, w1⟩, vs⟩
      · rcases m with _ | m2
        · omega
        · rfl
      · have hlen1 : (stringifyMembers ((k1, w1) :: vs)).length =
            3 + (escapeList k1.data).length + (stringifyJson w1).length +
              (objTail vs).length := by
          rw [stringifyMembers_eq vs k1 w1]
          simp only [List.length_cons, List.length_append]
          omega
        rw [stringifyMembers_eq vs k1 w1]
        obtain ⟨hwf1, hrt1⟩ := hmem (k1, w1) (List.mem_cons_self (k1, w1) vs)
        rcases m with _ | m2
        · omega
        rw [show ('"' :: (escapeList k1.data ++ '"' :: ':' ::
              (stringifyJson w1 ++ objTail vs))) ++ '}' :: rest =
            '"' :: (escapeList k1.data ++ '"' :: ':' :: (stringifyJson w1 ++
              (objTail vs ++ '}' :: rest))) from by simp [List.append_assoc]]
        have hm1 : parseMember m2 ('"' :: (escapeList k1.data ++ '"' :: ':' ::
            (stringifyJson w1 ++ (objTail vs ++ '}' :: rest)))) =
            some (k1, w1, objTail vs ++ '}' :: rest) :=
          parseMember_roundtrip k1 w1 m2 (objTail vs ++ '}' :: rest) hrt1 (by omega)
            (numDelim_objTail vs rest)
        rw [parseObjStart_step m2 '"' _ k1 w1 (objTail vs ++ '}' :: rest) (by decide)
          (by decide) hm1]
        have hloop := parseObjRest_loop vs [(k1, w1)] m2 rest
          (fun x hx => hmem x (List.mem_cons_of_mem (k1, w1) hx)) (by omega) hrest
        simpa using hloop

theorem jsonParse_stringify (v : Json) (hwf : jsonWF v = true) :
    jsonParse (stringifyJson v) = some v := by
  have hrt := rt_of_wf (sizeOf v) v (le_refl _) hwf
  have hv : parseValue (2 * (stringifyJson v).length + 4) (stringifyJson v ++ []) =
      some (v, []) := hrt _ [] (by omega) numDelim_nil
  rw [List.append_nil] at hv
  rw [jsonParse, hv]
  rfl


/-- C7: for every store state `s`, key `k` and well-formed JSON value `v`
(every number lexeme in `v` is a complete JSON number), `dbSet s k v`
immediately followed by `dbGet` on `k` returns `.value v` — the stored
`JSON.stringify` text parses back to a value deep-equal to `v`.  The
statement quantifies over arbitrary prior store states, so it covers both
the insert and the update (upsert) case. -/
theorem c7_set_get_roundtrip (s : Store) (k : String) (v : Json) (hwf : jsonWF v = true) :
    dbGet (dbSet s k v) k = .value v := by
  rw [dbGet]
  show (match (dbSet s k v) k with
        | none => GetResult.null
        | some txt =>
          match jsonParse txt.data with
          | some j => GetResult.value j
          | none => GetResult.error) = GetResult.value v
  rw [show (dbSet s k v) k = some (stringifyStr v) from by rw [dbSet]; exact if_pos rfl]
  show (match jsonParse (stringifyStr v).data with
        | some j => GetResult.value j
        | none => GetResult.error) = GetResult.value v
  rw [show ((stringifyStr v).data : List Char) = stringifyJson v from rfl,
    jsonParse_stringify v hwf]

theorem c7_set_get_roundtrip_witness :
    jsonWF (Json.obj [("a", Json.arr [Json.num "1.5e2", Json.bool true, Json.null]),
      ("b", Json.str "x\ny")]) = true ∧
    dbGet (dbSet demoStore "tasks"
        (Json.obj [("a", Json.arr [Json.num "1.5e2", Json.bool true, Json.null]),
          ("b", Json.str "x\ny")])) "tasks" =
      .value (Json.obj [("a", Json.arr [Json.num "1.5e2", Json.bool true, Json.null]),
        ("b", Json.str "x\ny")]) :=
  ⟨by decide, c7_set_get_roundtrip demoStore "tasks"
    (Json.obj [("a", Json.arr [Json.num "1.5e2", Json.bool true, Json.null]),
      ("b", Json.str "x\ny")]) (by decide)⟩

end Assistant
